import Mathlib

/-!
Shallow embedding of the core of the nbody repository
(src/geometry/vec3d.rs and src/geometry/bh_tree.rs).

Rust f64 arithmetic is idealised as exact real arithmetic; f64 comparisons
and structural equality become the corresponding real propositions.  Code
paths that panic return Option.none, and the non-structural recursion of
tree insertion is made total with an explicit fuel parameter (running out
of fuel also yields none, and theorems about insertion are conditioned on a
`= some _` result).
-/

noncomputable section

open Classical

/-- Gravitational constant from vec3d.rs: `const G: f64 = 6.67430e-11;`
(written as the exact rational 667430 / 10^16). -/
def G : ℝ := 667430 / 10 ^ 16

/-- Speed of light from vec3d.rs: `const C: f64 = 299792458.0;`. -/
def C : ℝ := 299792458

/-- `Vec3d` from vec3d.rs: a 3-component vector. -/
structure Vec3d where
  x : ℝ
  y : ℝ
  z : ℝ

/-- `Vec3d::new`. -/
def Vec3d.new (x y z : ℝ) : Vec3d := ⟨x, y, z⟩

/-- `Vec3d::new_zero`. -/
def Vec3d.new_zero : Vec3d := Vec3d.new 0 0 0

/-- `impl Add for Vec3d` (also covers `AddAssign`). -/
instance : Add Vec3d := ⟨fun a b => Vec3d.new (a.x + b.x) (a.y + b.y) (a.z + b.z)⟩

/-- `impl Mul<f64> for Vec3d`: componentwise `s * v`. -/
instance : HMul Vec3d ℝ Vec3d := ⟨fun v s => Vec3d.new (s * v.x) (s * v.y) (s * v.z)⟩

/-- `impl Mul<Vec3d> for f64`. -/
instance : HMul ℝ Vec3d Vec3d := ⟨fun s v => Vec3d.new (s * v.x) (s * v.y) (s * v.z)⟩

/-- `impl Div<f64> for Vec3d`: componentwise `v / s`. -/
instance : HDiv Vec3d ℝ Vec3d := ⟨fun v s => Vec3d.new (v.x / s) (v.y / s) (v.z / s)⟩

/-- `Point` from vec3d.rs: a point mass (field order as in the source). -/
structure Point where
  mass : ℝ
  vel : Vec3d
  schwarzchild_radius : ℝ
  x : ℝ
  y : ℝ
  z : ℝ

/-- `Point::new`: the merge radius is derived from the mass at construction,
`2.0 * G * mass / (C * C)`. -/
def Point.new (mass x y z : ℝ) (velocity : Vec3d) : Point :=
  ⟨mass, velocity, 2 * G * mass / (C * C), x, y, z⟩

/-- `Point::new_zero`. -/
def Point.new_zero : Point := Point.new 0 0 0 0 Vec3d.new_zero

/-- `Point::distance_to`: Euclidean distance. -/
def Point.distance_to (self other : Point) : ℝ :=
  Real.sqrt ((other.x - self.x) * (other.x - self.x) +
    (other.y - self.y) * (other.y - self.y) +
    (other.z - self.z) * (other.z - self.z))

/-- `Point::apply_force`: the per-step kinematic update.  Note the source
multiplies the acceleration by `dt` and then multiplies by `dt` again when
updating the velocity. -/
def Point.apply_force (self : Point) (dt : ℝ) (force : Vec3d) : Point :=
  let a := force / self.mass * dt
  let v := self.vel + a * dt
  Point.new self.mass (self.x + v.x * dt) (self.y + v.y * dt) (self.z + v.z * dt) v

/-- `Point::force_from`: two-body Newtonian force of `p` acting on `self`. -/
def Point.force_from (self p : Point) : Vec3d :=
  let dist := self.distance_to p
  let f := G * self.mass * p.mass / (dist * dist)
  Vec3d.new ((p.x - self.x) / dist * f) ((p.y - self.y) / dist * f)
    ((p.z - self.z) / dist * f)

/-- `should_merge` from bh_tree.rs. -/
def should_merge (p1 p2 : Point) : Prop :=
  p1.distance_to p2 ≤ p1.schwarzchild_radius ∨ p1.distance_to p2 ≤ p2.schwarzchild_radius

/-- `BHNode` from bh_tree.rs (field order as in the source struct). -/
inductive BHNode where
  | mk (theta : ℝ) (center_of_mass : Point) (point : Option Point) (count : ℤ)
      (region_size : ℝ) (xloc : ℝ) (yloc : ℝ) (zloc : ℝ) (children : List BHNode)

def BHNode.theta : BHNode → ℝ
  | .mk th _ _ _ _ _ _ _ _ => th

def BHNode.center_of_mass : BHNode → Point
  | .mk _ c _ _ _ _ _ _ _ => c

def BHNode.point : BHNode → Option Point
  | .mk _ _ pt _ _ _ _ _ _ => pt

def BHNode.count : BHNode → ℤ
  | .mk _ _ _ cnt _ _ _ _ _ => cnt

def BHNode.region_size : BHNode → ℝ
  | .mk _ _ _ _ s _ _ _ _ => s

def BHNode.xloc : BHNode → ℝ
  | .mk _ _ _ _ _ x _ _ _ => x

def BHNode.yloc : BHNode → ℝ
  | .mk _ _ _ _ _ _ y _ _ => y

def BHNode.zloc : BHNode → ℝ
  | .mk _ _ _ _ _ _ _ z _ => z

def BHNode.children : BHNode → List BHNode
  | .mk _ _ _ _ _ _ _ _ ch => ch

/-- `BHNode::new`. -/
def BHNode.new (theta region_size x y z : ℝ) : BHNode :=
  .mk theta Point.new_zero none 0 region_size x y z []

/-- The incremental aggregate update at the top of `BHNode::add_point`
(mass-weighted position, momentum-weighted velocity, summed mass). -/
def comUpdate (c p : Point) : Point :=
  let old_mass := c.mass
  let new_mass := c.mass + p.mass
  let new_vel := (c.vel * old_mass + p.mass * p.vel) / new_mass
  Point.new new_mass ((old_mass * c.x + p.x * p.mass) / new_mass)
    ((old_mass * c.y + p.y * p.mass) / new_mass)
    ((old_mass * c.z + p.z * p.mass) / new_mass) new_vel

/-- The containment test in `BHNode::add_to_child`:
`(child.xloc..(child.xloc + child.region_size)).contains(&x)` on each axis. -/
def childContains (child : BHNode) (p : Point) : Prop :=
  (child.xloc ≤ p.x ∧ p.x < child.xloc + child.region_size) ∧
  (child.yloc ≤ p.y ∧ p.y < child.yloc + child.region_size) ∧
  (child.zloc ≤ p.z ∧ p.z < child.zloc + child.region_size)

/-- `BHNode::split`: replace the children by 8 fresh octant nodes, each with
half the edge, generated in the source's loop order (x outermost, then y,
then z). -/
def BHNode.split : BHNode → BHNode
  | .mk th c pt cnt s x y z _ =>
    .mk th c pt cnt s x y z
      [BHNode.new th (s / 2) x y z,
       BHNode.new th (s / 2) x y (z + s / 2),
       BHNode.new th (s / 2) x (y + s / 2) z,
       BHNode.new th (s / 2) x (y + s / 2) (z + s / 2),
       BHNode.new th (s / 2) (x + s / 2) y z,
       BHNode.new th (s / 2) (x + s / 2) y (z + s / 2),
       BHNode.new th (s / 2) (x + s / 2) (y + s / 2) z,
       BHNode.new th (s / 2) (x + s / 2) (y + s / 2) (z + s / 2)]

/-- `self.count = 0; self.children.iter().for_each(|x| self.count += x.count)`. -/
def countSum (cs : List BHNode) : ℤ := cs.foldl (fun acc c => acc + c.count) 0

/-- Replace the `point` field (models `self.point = ...`). -/
def BHNode.withPoint : BHNode → Option Point → BHNode
  | .mk th c _ cnt s x y z ch, pt => .mk th c pt cnt s x y z ch

/-- Replace the `count` field (models `self.count = ...`). -/
def BHNode.withCount : BHNode → ℤ → BHNode
  | .mk th c pt _ s x y z ch, cnt => .mk th c pt cnt s x y z ch

mutual

/-- `BHNode::add_point` (returns the delta on the count, paired with the
updated node).  Fuel bounds the recursion depth; `none` models either fuel
exhaustion or the `panic!("inconsistency in node")` arm. -/
def BHNode.add_point : ℕ → BHNode → Point → Option (BHNode × ℤ)
  | 0, _, _ => none
  | fuel + 1, .mk th c pt cnt s x y z ch, p =>
    let com2 := comUpdate c p
    let cnt2 := cnt + 1
    if cnt2 = 1 then
      -- first point in this node: store it as the leaf body
      some (.mk th com2 (some p) cnt2 s x y z ch, 0)
    else if cnt2 = 2 ∧ ch = [] then
      match pt with
      | none => none
      | some local_pt =>
        if should_merge local_pt p then
          some (.mk th com2 (some com2) (cnt2 - 1) s x y z ch, -1)
        else
          match BHNode.add_to_child fuel ((BHNode.mk th com2 pt cnt2 s x y z ch).split)
              local_pt with
          | none => none
          | some (n2, _) =>
            match BHNode.add_to_child fuel (n2.withPoint none) p with
            | none => none
            | some (n3, _) => some (n3.withCount (countSum n3.children), 0)
    else
      match BHNode.add_to_child fuel (.mk th com2 pt cnt2 s x y z ch) p with
      | none => none
      | some (n3, _) => some (n3.withCount (countSum n3.children), 0)
termination_by fuel n p => (fuel, 0, 0)

/-- `BHNode::add_to_child`: route `p` to the first child whose bounds contain
it; when no child contains `p`, the source logs a warning and returns 0 with
the node unchanged. -/
def BHNode.add_to_child : ℕ → BHNode → Point → Option (BHNode × ℤ)
  | fuel, .mk th c pt cnt s x y z ch, p =>
    match routeChildren fuel ch p with
    | none => none
    | some (ch2, d) => some (.mk th c pt cnt s x y z ch2, d)
termination_by fuel n p => (fuel, 2, 0)

/-- The `for child in self.children.iter_mut()` loop of `BHNode::add_to_child`. -/
def routeChildren : ℕ → List BHNode → Point → Option (List BHNode × ℤ)
  | _, [], _ => some ([], 0)
  | fuel, child :: rest, p =>
    if childContains child p then
      match BHNode.add_point fuel child p with
      | none => none
      | some (c2, d) => some (c2 :: rest, d)
    else
      match routeChildren fuel rest p with
      | none => none
      | some (rest2, d) => some (child :: rest2, d)
termination_by fuel cs p => (fuel, 1, cs.length)

end

mutual

/-- `BHNode::get_points`: enumerate the leaf bodies; at a childless node the
source unwraps `self.point` with `.expect("point")`, so a childless node with
no stored body panics (`none`). -/
def BHNode.get_points : BHNode → Option (List Point)
  | .mk _ _ pt _ _ _ _ _ ch =>
    if ch = [] then pt.map (fun p => [p])
    else getPointsList ch

/-- The loop of `BHNode::get_points` over the children: children with
`count > 0` contribute their points in order. -/
def getPointsList : List BHNode → Option (List Point)
  | [] => some []
  | c :: rest =>
    if 0 < c.count then
      match c.get_points, getPointsList rest with
      | some v, some w => some (v ++ w)
      | _, _ => none
    else getPointsList rest

end

mutual

/-- `BHNode::calculate_force`. -/
def BHNode.calculate_force : BHNode → ℝ → Point → Vec3d
  | .mk th c _ cnt s _ _ _ ch, dt, p =>
    if p = c ∨ cnt = 0 then Vec3d.new_zero
    else if s / c.distance_to p < th then p.force_from c
    else forceSum ch dt p

/-- The accumulation loop of `BHNode::calculate_force` over the children. -/
def forceSum : List BHNode → ℝ → Point → Vec3d
  | [], _, _ => Vec3d.new_zero
  | c :: rest, dt, p => c.calculate_force dt p + forceSum rest dt p

end

/-- `BHTree` from bh_tree.rs. -/
structure BHTree where
  root : BHNode
  theta : ℝ
  graph_size : ℝ

/-- `BHTree::new`. -/
def BHTree.new (theta graph_size x y z : ℝ) : BHTree :=
  ⟨BHNode.new theta graph_size x y z, theta, graph_size⟩

/-- `BHTree::add_point` (discards the count delta). -/
def BHTree.add_point (fuel : ℕ) (t : BHTree) (p : Point) : Option BHTree :=
  match t.root.add_point fuel p with
  | none => none
  | some (r, _) => some ⟨r, t.theta, t.graph_size⟩

/-- Sequential insertion of a list of points (the loop in `BHTree::next` /
the caller-side insertion loop), at the node level. -/
def insertAll (fuel : ℕ) : BHNode → List Point → Option BHNode
  | n, [] => some n
  | n, p :: ps =>
    match BHNode.add_point fuel n p with
    | none => none
    | some (n2, _) => insertAll fuel n2 ps

/-- `f64::MAX`, the initial accumulator of the min fold in `BHTree::next`. -/
def f64MAX : ℝ := (2 ^ 53 - 1) * 2 ^ 971

/-- `f64::MIN`. -/
def f64MIN : ℝ := -f64MAX

/-- `BHTree::next`: evaluate the force on every body against the current
tree, update each body's kinematics, refit the bounding cube to the updated
positions expanded by 1 on each side, and rebuild a fresh tree. -/
def BHTree.next (fuel : ℕ) (t : BHTree) (dt : ℝ) : Option BHTree :=
  match t.root.get_points with
  | none => none
  | some ps =>
    let new_points := ps.map (fun p => p.apply_force dt (t.root.calculate_force dt p))
    let min_dim := new_points.foldl (fun acc p => min p.z (min p.y (min p.x acc))) f64MAX
    let max_dim := new_points.foldl (fun acc p => max p.z (max p.y (max p.x acc))) f64MIN
    let max_dim2 := max_dim + 1
    let min_dim2 := min_dim - 1
    let graph_size := max_dim2 - min_dim2
    match insertAll fuel (BHNode.new t.theta graph_size min_dim2 min_dim2 min_dim2)
        new_points with
    | none => none
    | some root => some ⟨root, t.theta, graph_size⟩

/-! ### Concrete inputs used by witnesses and counterexamples -/

/-- A node with 8 children tiling [0,10)³ (used for out-of-bounds routing). -/
def c1node : BHNode := (BHNode.new 1 10 0 0 0).split

/-- A body far outside [0,10)³. -/
def c1p : Point := Point.new 1 20 0 0 Vec3d.new_zero

/-- A body inside [0,5)³ used as resident leaf body. -/
def c9q : Point := Point.new 1 1 1 1 Vec3d.new_zero

/-- A consistent branch node over [0,10)³ holding exactly the body `c9q`
in its first child. -/
def c9node : BHNode :=
  .mk 1 c9q none 1 10 0 0 0
    [.mk 1 c9q (some c9q) 1 5 0 0 0 [],
     BHNode.new 1 5 0 0 5, BHNode.new 1 5 0 5 0, BHNode.new 1 5 0 5 5,
     BHNode.new 1 5 5 0 0, BHNode.new 1 5 5 0 5, BHNode.new 1 5 5 5 0,
     BHNode.new 1 5 5 5 5]

/-- Two coincident bodies (distance 0, so within both merge radii). -/
def c4p1 : Point := Point.new 1 1 1 1 Vec3d.new_zero

/-- Second coincident body, mass 2. -/
def c4p2 : Point := Point.new 2 1 1 1 Vec3d.new_zero

/-- Aggregate at (1,2,2) used by the force-evaluation examples. -/
def c6com : Point := Point.new 1 1 2 2 Vec3d.new_zero

/-- A childless count-1 node with region 5 and theta 1: the opening test
fails for a query at distance 3 (ratio 5/3 ≥ 1) and the loop over its empty
children list returns the zero vector. -/
def c6node : BHNode := .mk 1 c6com (some c6com) 1 5 0 0 0 []

/-- Same leaf but with region 1, so the opening test passes (ratio 1/3 < 1). -/
def c6nodeNear : BHNode := .mk 1 c6com (some c6com) 1 1 0 0 0 []

/-- Query body at the origin. -/
def c6p : Point := Point.new 1 0 0 0 Vec3d.new_zero

/-- Node after inserting `c4p1` into a fresh node over [0,10)³. -/
def c8n1 : BHNode := .mk 1 (comUpdate Point.new_zero c4p1) (some c4p1) 1 10 0 0 0 []

/-- Node after then inserting `c4p2` (which merges). -/
def c8n2 : BHNode :=
  .mk 1 (comUpdate (comUpdate Point.new_zero c4p1) c4p2)
    (some (comUpdate (comUpdate Point.new_zero c4p1) c4p2)) 1 10 0 0 0 []

/-- Same two insertions in the opposite order: after `c4p2`. -/
def c8m1 : BHNode := .mk 1 (comUpdate Point.new_zero c4p2) (some c4p2) 1 10 0 0 0 []

/-- ... and after then inserting `c4p1` (which merges). -/
def c8m2 : BHNode :=
  .mk 1 (comUpdate (comUpdate Point.new_zero c4p2) c4p1)
    (some (comUpdate (comUpdate Point.new_zero c4p2) c4p1)) 1 10 0 0 0 []

/-- A single body at (2,2,2) with zero velocity. -/
def c7p : Point := Point.new 1 2 2 2 Vec3d.new_zero

/-- A one-body tree over [0,5)³ whose aggregate mirrors its body. -/
def c7t : BHTree := ⟨.mk 1 c7p (some c7p) 1 5 0 0 0 [], 1, 5⟩

/-- The updated body after one step of `c7t` (zero force, so unmoved). -/
def c7q : Point := c7p.apply_force 1 (c7t.root.calculate_force 1 c7p)

/-- The tree `next` rebuilds from `c7t`: cube [1,3)³ fitted around (2,2,2). -/
def c7t2 : BHTree :=
  ⟨.mk 1 (comUpdate Point.new_zero c7q) (some c7q) 1 2 1 1 1 [], 1, 2⟩

/-- Counterexample body A at (4,4,3) in the low octant of [0,10)³. -/
def c3p1 : Point := Point.new 1 4 4 3 Vec3d.new_zero

/-- Counterexample body B at (5,6,5), distance 3 from A, in the high octant. -/
def c3p2 : Point := Point.new 1 5 6 5 Vec3d.new_zero

/-- Tree after inserting only `c3p1` (theta 1, cube [0,10)³). -/
def c3n1 : BHNode := .mk 1 c3p1 (some c3p1) 1 10 0 0 0 []

/-- Leaf holding `c3p1` after the split. -/
def c3leaf0 : BHNode := .mk 1 c3p1 (some c3p1) 1 5 0 0 0 []

/-- Leaf holding `c3p2` after the split. -/
def c3leaf7 : BHNode := .mk 1 c3p2 (some c3p2) 1 5 5 5 5 []

/-- Root aggregate of the two counterexample bodies. -/
def c3com : Point := comUpdate (comUpdate Point.new_zero c3p1) c3p2

/-- The two-body tree over [0,10)³ with `c3p1`, `c3p2` in opposite octants. -/
def c3root : BHNode :=
  .mk 1 c3com none 2 10 0 0 0
    [c3leaf0, BHNode.new 1 5 0 0 5, BHNode.new 1 5 0 5 0, BHNode.new 1 5 0 5 5,
     BHNode.new 1 5 5 0 0, BHNode.new 1 5 5 0 5, BHNode.new 1 5 5 5 0, c3leaf7]

/-- Amended-claim body A at (4,4,2). -/
def c3q1 : Point := Point.new 1 4 4 2 Vec3d.new_zero

/-- Amended-claim body B at (6,7,8), distance 7 from A. -/
def c3q2 : Point := Point.new 1 6 7 8 Vec3d.new_zero

/-- Tree after inserting only `c3q1` at opening angle θ. -/
def c3qn1 (θ : ℝ) : BHNode := .mk θ c3q1 (some c3q1) 1 10 0 0 0 []

/-- Leaf holding `c3q1`. -/
def c3qleaf0 (θ : ℝ) : BHNode := .mk θ c3q1 (some c3q1) 1 5 0 0 0 []

/-- Leaf holding `c3q2`. -/
def c3qleaf7 (θ : ℝ) : BHNode := .mk θ c3q2 (some c3q2) 1 5 5 5 5 []

/-- Root aggregate of the two amended-claim bodies. -/
def c3qcom : Point := comUpdate (comUpdate Point.new_zero c3q1) c3q2

/-- The two-body tree over [0,10)³ with `c3q1`, `c3q2` in opposite octants,
at opening angle θ. -/
def c3qroot (θ : ℝ) : BHNode :=
  .mk θ c3qcom none 2 10 0 0 0
    [c3qleaf0 θ, BHNode.new θ 5 0 0 5, BHNode.new θ 5 0 5 0, BHNode.new θ 5 0 5 5,
     BHNode.new θ 5 5 0 0, BHNode.new θ 5 5 0 5, BHNode.new θ 5 5 5 0, c3qleaf7 θ]

/-- Geometry quadruple of a node: (edge length, xloc, yloc, zloc). -/
def geom4 (n : BHNode) : ℝ × ℝ × ℝ × ℝ := (n.region_size, n.xloc, n.yloc, n.zloc)

/-- The geometries of the 8 octant children created by `split`, in the
source's generation order. -/
def octGeoms (s x y z : ℝ) : List (ℝ × ℝ × ℝ × ℝ) :=
  [(s / 2, x, y, z), (s / 2, x, y, z + s / 2), (s / 2, x, y + s / 2, z),
   (s / 2, x, y + s / 2, z + s / 2), (s / 2, x + s / 2, y, z),
   (s / 2, x + s / 2, y, z + s / 2), (s / 2, x + s / 2, y + s / 2, z),
   (s / 2, x + s / 2, y + s / 2, z + s / 2)]

/-- The body's position lies in the half-open cube at (x,y,z) with edge s. -/
def inCube (x y z s : ℝ) (p : Point) : Prop :=
  x ≤ p.x ∧ p.x < x + s ∧ y ≤ p.y ∧ p.y < y + s ∧ z ≤ p.z ∧ p.z < z + s

/-- Well-formedness invariant maintained by insertion of in-bounds bodies:
positive edge; nonnegative count; a childless node is empty (count 0, no
body) or holds exactly one body; a node with children stores no body, has
count ≥ 1 equal to the sum of its children's counts, and its children are
the 8 octants of its cube; all children are well-formed. -/
inductive Wf : BHNode → Prop where
  | intro (th : ℝ) (c : Point) (pt : Option Point) (cnt : ℤ) (s x y z : ℝ)
      (ch : List BHNode)
      (hs : 0 < s) (hcnt : 0 ≤ cnt)
      (hleaf : ch = [] → (cnt = 0 ∧ pt = none) ∨ (cnt = 1 ∧ pt.isSome))
      (hbranch : ch ≠ [] → pt = none ∧ 1 ≤ cnt ∧ cnt = countSum ch ∧
        ch.map geom4 = octGeoms s x y z)
      (hch : ∀ cc ∈ ch, Wf cc) :
      Wf (.mk th c pt cnt s x y z ch)

/-- The structural invariant of the claim: every node has 0 or 8 children,
every branch count is the sum of its children's counts, and every childless
count-1 node stores a leaf body. -/
inductive StructInv : BHNode → Prop where
  | intro (th : ℝ) (c : Point) (pt : Option Point) (cnt : ℤ) (s x y z : ℝ)
      (ch : List BHNode)
      (hlen : ch.length = 0 ∨ ch.length = 8)
      (hsum : ch ≠ [] → cnt = countSum ch)
      (hleaf : ch = [] → cnt = 1 → pt.isSome)
      (hch : ∀ cc ∈ ch, StructInv cc) :
      StructInv (.mk th c pt cnt s x y z ch)

/-- The 8 fresh octant children created by `split` (same order). -/
def octNodes (th s x y z : ℝ) : List BHNode :=
  [BHNode.new th (s / 2) x y z,
   BHNode.new th (s / 2) x y (z + s / 2),
   BHNode.new th (s / 2) x (y + s / 2) z,
   BHNode.new th (s / 2) x (y + s / 2) (z + s / 2),
   BHNode.new th (s / 2) (x + s / 2) y z,
   BHNode.new th (s / 2) (x + s / 2) y (z + s / 2),
   BHNode.new th (s / 2) (x + s / 2) (y + s / 2) z,
   BHNode.new th (s / 2) (x + s / 2) (y + s / 2) (z + s / 2)]

/-- First out-of-bounds body for the C5 counterexample. -/
def c5p1 : Point := Point.new 1 20 0 0 Vec3d.new_zero

/-- Second out-of-bounds body. -/
def c5p2 : Point := Point.new 1 30 0 0 Vec3d.new_zero

/-- Third out-of-bounds body. -/
def c5p3 : Point := Point.new 1 40 0 0 Vec3d.new_zero

/-- Tree over [0,10)³ after inserting the out-of-bounds `c5p1`. -/
def c5n1 : BHNode := .mk 1 c5p1 (some c5p1) 1 10 0 0 0 []

/-- After also inserting `c5p2`: the split dropped both bodies, leaving a
branch with 8 empty children and count 0. -/
def c5n2 : BHNode :=
  .mk 1 (comUpdate c5p1 c5p2) none 0 10 0 0 0
    [BHNode.new 1 5 0 0 0, BHNode.new 1 5 0 0 5, BHNode.new 1 5 0 5 0,
     BHNode.new 1 5 0 5 5, BHNode.new 1 5 5 0 0, BHNode.new 1 5 5 0 5,
     BHNode.new 1 5 5 5 0, BHNode.new 1 5 5 5 5]

/-- After also inserting `c5p3`: a node with 8 children, count 1 and a
stored body — the children's counts sum to 0 ≠ 1. -/
def c5n3 : BHNode :=
  .mk 1 (comUpdate (comUpdate c5p1 c5p2) c5p3) (some c5p3) 1 10 0 0 0
    [BHNode.new 1 5 0 0 0, BHNode.new 1 5 0 0 5, BHNode.new 1 5 0 5 0,
     BHNode.new 1 5 0 5 5, BHNode.new 1 5 5 0 0, BHNode.new 1 5 5 0 5,
     BHNode.new 1 5 5 5 0, BHNode.new 1 5 5 5 5]

/-! ### Basic simp lemmas for the embedding -/

@[simp] theorem Vec3d.add_def (a b : Vec3d) :
    a + b = Vec3d.new (a.x + b.x) (a.y + b.y) (a.z + b.z) := rfl

@[simp] theorem Vec3d.mul_scalar_def (v : Vec3d) (s : ℝ) :
    v * s = Vec3d.new (s * v.x) (s * v.y) (s * v.z) := rfl

@[simp] theorem Vec3d.scalar_mul_def (s : ℝ) (v : Vec3d) :
    s * v = Vec3d.new (s * v.x) (s * v.y) (s * v.z) := rfl

@[simp] theorem Vec3d.div_scalar_def (v : Vec3d) (s : ℝ) :
    v / s = Vec3d.new (v.x / s) (v.y / s) (v.z / s) := rfl

@[simp] theorem Vec3d.new_x (x y z : ℝ) : (Vec3d.new x y z).x = x := rfl
@[simp] theorem Vec3d.new_y (x y z : ℝ) : (Vec3d.new x y z).y = y := rfl
@[simp] theorem Vec3d.new_z (x y z : ℝ) : (Vec3d.new x y z).z = z := rfl

@[simp] theorem Point.new_mass (m x y z : ℝ) (v : Vec3d) : (Point.new m x y z v).mass = m := rfl
@[simp] theorem Point.new_vel (m x y z : ℝ) (v : Vec3d) : (Point.new m x y z v).vel = v := rfl
@[simp] theorem Point.new_x_val (m x y z : ℝ) (v : Vec3d) : (Point.new m x y z v).x = x := rfl
@[simp] theorem Point.new_y_val (m x y z : ℝ) (v : Vec3d) : (Point.new m x y z v).y = y := rfl
@[simp] theorem Point.new_z_val (m x y z : ℝ) (v : Vec3d) : (Point.new m x y z v).z = z := rfl
@[simp] theorem Point.new_radius (m x y z : ℝ) (v : Vec3d) :
    (Point.new m x y z v).schwarzchild_radius = 2 * G * m / (C * C) := rfl

@[simp] theorem BHNode.theta_mk (th c pt cnt s x y z ch) :
    (BHNode.mk th c pt cnt s x y z ch).theta = th := rfl
@[simp] theorem BHNode.center_of_mass_mk (th c pt cnt s x y z ch) :
    (BHNode.mk th c pt cnt s x y z ch).center_of_mass = c := rfl
@[simp] theorem BHNode.point_mk (th c pt cnt s x y z ch) :
    (BHNode.mk th c pt cnt s x y z ch).point = pt := rfl
@[simp] theorem BHNode.count_mk (th c pt cnt s x y z ch) :
    (BHNode.mk th c pt cnt s x y z ch).count = cnt := rfl
@[simp] theorem BHNode.region_size_mk (th c pt cnt s x y z ch) :
    (BHNode.mk th c pt cnt s x y z ch).region_size = s := rfl
@[simp] theorem BHNode.xloc_mk (th c pt cnt s x y z ch) :
    (BHNode.mk th c pt cnt s x y z ch).xloc = x := rfl
@[simp] theorem BHNode.yloc_mk (th c pt cnt s x y z ch) :
    (BHNode.mk th c pt cnt s x y z ch).yloc = y := rfl
@[simp] theorem BHNode.zloc_mk (th c pt cnt s x y z ch) :
    (BHNode.mk th c pt cnt s x y z ch).zloc = z := rfl
@[simp] theorem BHNode.children_mk (th c pt cnt s x y z ch) :
    (BHNode.mk th c pt cnt s x y z ch).children = ch := rfl

@[simp] theorem BHNode.new_theta (th s x y z : ℝ) : (BHNode.new th s x y z).theta = th := rfl
@[simp] theorem BHNode.new_center_of_mass (th s x y z : ℝ) :
    (BHNode.new th s x y z).center_of_mass = Point.new_zero := rfl
@[simp] theorem BHNode.new_point (th s x y z : ℝ) : (BHNode.new th s x y z).point = none := rfl
@[simp] theorem BHNode.new_count (th s x y z : ℝ) : (BHNode.new th s x y z).count = 0 := rfl
@[simp] theorem BHNode.new_region_size (th s x y z : ℝ) :
    (BHNode.new th s x y z).region_size = s := rfl
@[simp] theorem BHNode.new_xloc (th s x y z : ℝ) : (BHNode.new th s x y z).xloc = x := rfl
@[simp] theorem BHNode.new_yloc (th s x y z : ℝ) : (BHNode.new th s x y z).yloc = y := rfl
@[simp] theorem BHNode.new_zloc (th s x y z : ℝ) : (BHNode.new th s x y z).zloc = z := rfl
@[simp] theorem BHNode.new_children (th s x y z : ℝ) :
    (BHNode.new th s x y z).children = [] := rfl

theorem Vec3d.zero_add_vec (v : Vec3d) : Vec3d.new_zero + v = v := by
  cases v
  simp [Vec3d.new_zero, Vec3d.new]

theorem Vec3d.add_zero_vec (v : Vec3d) : v + Vec3d.new_zero = v := by
  cases v
  simp [Vec3d.new_zero, Vec3d.new]

/-! ### General lemmas about the embedded operations -/

/-- When no child's bounds contain `p`, the routing loop leaves the children
unchanged and reports delta 0. -/
theorem routeChildren_no_match (fuel : ℕ) (cs : List BHNode) (p : Point)
    (h : ∀ c ∈ cs, ¬ childContains c p) :
    routeChildren fuel cs p = some (cs, 0) := by
  induction cs with
  | nil => simp [routeChildren]
  | cons c rest ih =>
    rw [routeChildren, if_neg (h c (by simp)), ih (fun d hd => h d (by simp [hd]))]

/-! ### Claim theorems -/

/-- C1 (code-bug evidence): when a node has children and no child's bounds
contain the body's position, `add_to_child` does NOT signal a fatal error:
it returns normally with delta 0 and the node (hence the body set)
unchanged — the body is silently dropped, contrary to the specification's
fail-hard policy. -/
theorem add_to_child_out_of_bounds_returns_normally
    (fuel : ℕ) (th : ℝ) (c : Point) (pt : Option Point) (cnt : ℤ)
    (s x y z : ℝ) (ch : List BHNode) (p : Point)
    (h : ∀ cc ∈ ch, ¬ childContains cc p) :
    BHNode.add_to_child fuel (.mk th c pt cnt s x y z ch) p
      = some (.mk th c pt cnt s x y z ch, 0) := by
  rw [BHNode.add_to_child, routeChildren_no_match fuel ch p h]

/-- Witness for C1's theorem: a node with 8 children tiling [0,10)³ and a
body at (20,0,0) outside all of them; `add_to_child` returns normally. -/
theorem add_to_child_out_of_bounds_witness :
    (∀ cc ∈ c1node.children, ¬ childContains cc c1p) ∧
    BHNode.add_to_child 5 c1node c1p = some (c1node, 0) := by
  have h : ∀ cc ∈ c1node.children, ¬ childContains cc c1p := by
    intro cc hcc
    fin_cases hcc <;>
      norm_num [childContains, BHNode.new, c1p, Point.new, Point.new_zero]
  exact ⟨h, add_to_child_out_of_bounds_returns_normally 5 1 Point.new_zero none 0 10 0 0 0 _
    c1p h⟩

/-- C2 (code-bug evidence): with mass 1, zero initial velocity, force
(1,0,0) and dt = 2, `apply_force` produces velocity (4,0,0), i.e.
v + (F/m)·dt², whereas the specified update v + (F/m)·dt gives (2,0,0):
the time step is applied twice to the velocity update.  (The position is
p + v'·dt for the velocity v' the code computed.) -/
theorem apply_force_applies_dt_twice :
    ((Point.new 1 0 0 0 Vec3d.new_zero).apply_force 2 (Vec3d.new 1 0 0)).vel
        = Vec3d.new 4 0 0 ∧
    ((Point.new 1 0 0 0 Vec3d.new_zero).apply_force 2 (Vec3d.new 1 0 0)).x = 8 ∧
    Point.new_zero.vel + Vec3d.new 1 0 0 / (1 : ℝ) * (2 : ℝ) = Vec3d.new 2 0 0 ∧
    Vec3d.new 4 0 0 ≠ Vec3d.new 2 0 0 := by
  refine ⟨?_, ?_, ?_, ?_⟩
  · norm_num [Point.apply_force, Point.new_zero, Vec3d.new_zero, Vec3d.new]
  · norm_num [Point.apply_force, Point.new_zero, Vec3d.new_zero, Vec3d.new]
  · norm_num [Point.new_zero, Vec3d.new_zero, Vec3d.new]
  · intro h
    have := congrArg Vec3d.x h
    norm_num [Vec3d.new] at this

/-- C9: when a node with children finds no child containing the body, the
body's mass and momentum have already been folded into the node's aggregate
and stay there, while the node's enumerated bodies and count are unchanged;
if the aggregate mass previously matched the enumerated total, it now
strictly exceeds it. -/
theorem out_of_bounds_insert_leaks_aggregate
    (fuel : ℕ) (th : ℝ) (c : Point) (pt : Option Point) (cnt : ℤ)
    (s x y z : ℝ) (ch : List BHNode) (p : Point)
    (hch : ch ≠ []) (hcnt : cnt ≠ 0) (hsum : cnt = countSum ch)
    (hnone : ∀ cc ∈ ch, ¬ childContains cc p) :
    BHNode.add_point (fuel + 1) (.mk th c pt cnt s x y z ch) p
        = some (.mk th (comUpdate c p) pt cnt s x y z ch, 0) ∧
      (comUpdate c p).mass = c.mass + p.mass ∧
      (BHNode.mk th (comUpdate c p) pt cnt s x y z ch).get_points
        = (BHNode.mk th c pt cnt s x y z ch).get_points ∧
      ∀ pts : List Point,
        (BHNode.mk th c pt cnt s x y z ch).get_points = some pts →
        c.mass = (pts.map Point.mass).sum → 0 < p.mass →
        (pts.map Point.mass).sum < (comUpdate c p).mass := by
  have hmass : (comUpdate c p).mass = c.mass + p.mass := by
    simp [comUpdate]
  refine ⟨?_, hmass, ?_, ?_⟩
  · rw [BHNode.add_point.eq_def]
    simp only []
    rw [if_neg (by omega : ¬ (cnt + 1 = 1))]
    rw [if_neg (by exact fun hc => hch hc.2)]
    rw [add_to_child_out_of_bounds_returns_normally fuel th (comUpdate c p) pt (cnt + 1)
      s x y z ch p hnone]
    simp [BHNode.withCount, hsum]
  · rw [BHNode.get_points, BHNode.get_points]
  · intro pts hpts hmatch hp
    rw [hmass, ← hmatch]
    linarith

/-- Witness for C9's theorem: the concrete branch node `c9node` (holding only
`c9q`, aggregate mass 1 = enumerated total) and the out-of-bounds body `c1p`. -/
theorem out_of_bounds_insert_leaks_witness :
    (∀ cc ∈ c9node.children, ¬ childContains cc c1p) ∧
    c9node.get_points = some [c9q] ∧
    BHNode.add_point 1 c9node c1p
      = some (.mk 1 (comUpdate c9q c1p) none 1 10 0 0 0 c9node.children, 0) ∧
    ([c9q].map Point.mass).sum < (comUpdate c9q c1p).mass := by
  have h : ∀ cc ∈ c9node.children, ¬ childContains cc c1p := by
    intro cc hcc
    fin_cases hcc <;>
      norm_num [childContains, BHNode.new, c1p, Point.new, Point.new_zero]
  have hgp : c9node.get_points = some [c9q] := by
    rw [c9node, BHNode.get_points, if_neg (by simp)]
    norm_num [getPointsList, BHNode.get_points, BHNode.new]
  have main := out_of_bounds_insert_leaks_aggregate 0 1 c9q none 1 10 0 0 0
    c9node.children c1p (by simp [c9node]) (by norm_num)
    (by simp [c9node, countSum, BHNode.new]) h
  refine ⟨h, hgp, main.1, main.2.2.2 [c9q] ?_ ?_ ?_⟩
  · exact hgp
  · simp [c9q]
  · simp [c1p]

@[simp] theorem BHNode.split_theta (n : BHNode) : n.split.theta = n.theta := by
  cases n; rfl

@[simp] theorem BHNode.split_center_of_mass (n : BHNode) :
    n.split.center_of_mass = n.center_of_mass := by
  cases n; rfl

@[simp] theorem BHNode.split_point (n : BHNode) : n.split.point = n.point := by
  cases n; rfl

@[simp] theorem BHNode.split_count (n : BHNode) : n.split.count = n.count := by
  cases n; rfl

@[simp] theorem BHNode.split_region_size (n : BHNode) : n.split.region_size = n.region_size := by
  cases n; rfl

@[simp] theorem BHNode.split_xloc (n : BHNode) : n.split.xloc = n.xloc := by
  cases n; rfl

@[simp] theorem BHNode.split_yloc (n : BHNode) : n.split.yloc = n.yloc := by
  cases n; rfl

@[simp] theorem BHNode.split_zloc (n : BHNode) : n.split.zloc = n.zloc := by
  cases n; rfl

@[simp] theorem BHNode.withPoint_theta (n : BHNode) (pt : Option Point) :
    (n.withPoint pt).theta = n.theta := by cases n; rfl

@[simp] theorem BHNode.withPoint_center_of_mass (n : BHNode) (pt : Option Point) :
    (n.withPoint pt).center_of_mass = n.center_of_mass := by cases n; rfl

@[simp] theorem BHNode.withPoint_point (n : BHNode) (pt : Option Point) :
    (n.withPoint pt).point = pt := by cases n; rfl

@[simp] theorem BHNode.withPoint_count (n : BHNode) (pt : Option Point) :
    (n.withPoint pt).count = n.count := by cases n; rfl

@[simp] theorem BHNode.withPoint_region_size (n : BHNode) (pt : Option Point) :
    (n.withPoint pt).region_size = n.region_size := by cases n; rfl

@[simp] theorem BHNode.withPoint_xloc (n : BHNode) (pt : Option Point) :
    (n.withPoint pt).xloc = n.xloc := by cases n; rfl

@[simp] theorem BHNode.withPoint_yloc (n : BHNode) (pt : Option Point) :
    (n.withPoint pt).yloc = n.yloc := by cases n; rfl

@[simp] theorem BHNode.withPoint_zloc (n : BHNode) (pt : Option Point) :
    (n.withPoint pt).zloc = n.zloc := by cases n; rfl

@[simp] theorem BHNode.withPoint_children (n : BHNode) (pt : Option Point) :
    (n.withPoint pt).children = n.children := by cases n; rfl

@[simp] theorem BHNode.withCount_theta (n : BHNode) (k : ℤ) :
    (n.withCount k).theta = n.theta := by cases n; rfl

@[simp] theorem BHNode.withCount_center_of_mass (n : BHNode) (k : ℤ) :
    (n.withCount k).center_of_mass = n.center_of_mass := by cases n; rfl

@[simp] theorem BHNode.withCount_point (n : BHNode) (k : ℤ) :
    (n.withCount k).point = n.point := by cases n; rfl

@[simp] theorem BHNode.withCount_count (n : BHNode) (k : ℤ) :
    (n.withCount k).count = k := by cases n; rfl

@[simp] theorem BHNode.withCount_region_size (n : BHNode) (k : ℤ) :
    (n.withCount k).region_size = n.region_size := by cases n; rfl

@[simp] theorem BHNode.withCount_xloc (n : BHNode) (k : ℤ) :
    (n.withCount k).xloc = n.xloc := by cases n; rfl

@[simp] theorem BHNode.withCount_yloc (n : BHNode) (k : ℤ) :
    (n.withCount k).yloc = n.yloc := by cases n; rfl

@[simp] theorem BHNode.withCount_zloc (n : BHNode) (k : ℤ) :
    (n.withCount k).zloc = n.zloc := by cases n; rfl

@[simp] theorem BHNode.withCount_children (n : BHNode) (k : ℤ) :
    (n.withCount k).children = n.children := by cases n; rfl

/-- `add_to_child` only touches the children: every other field survives. -/
theorem add_to_child_fields (fuel : ℕ) (n : BHNode) (p : Point) (n2 : BHNode) (d : ℤ)
    (h : BHNode.add_to_child fuel n p = some (n2, d)) :
    n2.theta = n.theta ∧ n2.center_of_mass = n.center_of_mass ∧ n2.point = n.point ∧
    n2.count = n.count ∧ n2.region_size = n.region_size ∧ n2.xloc = n.xloc ∧
    n2.yloc = n.yloc ∧ n2.zloc = n.zloc := by
  cases n with
  | mk th c pt cnt s x y z ch =>
    rw [BHNode.add_to_child.eq_def] at h
    simp only [] at h
    cases hr : routeChildren fuel ch p with
    | none => rw [hr] at h; simp at h
    | some r =>
      obtain ⟨ch2, d2⟩ := r
      rw [hr] at h
      simp only [Option.some.injEq, Prod.mk.injEq] at h
      obtain ⟨h1, -⟩ := h
      subst h1
      simp

/-- `add_point` installs the incrementally updated aggregate and preserves
the node's geometry (`theta`, `region_size`, `xloc`, `yloc`, `zloc`). -/
theorem add_point_fields (fuel : ℕ) (n : BHNode) (p : Point) (n2 : BHNode) (d : ℤ)
    (h : BHNode.add_point fuel n p = some (n2, d)) :
    n2.center_of_mass = comUpdate n.center_of_mass p ∧ n2.theta = n.theta ∧
    n2.region_size = n.region_size ∧ n2.xloc = n.xloc ∧ n2.yloc = n.yloc ∧
    n2.zloc = n.zloc := by
  cases fuel with
  | zero => rw [BHNode.add_point.eq_def] at h; simp at h
  | succ fuel =>
    cases n with
    | mk th c pt cnt s x y z ch =>
      rw [BHNode.add_point.eq_def] at h
      simp only [] at h
      by_cases h1 : cnt + 1 = 1
      · rw [if_pos h1] at h
        simp only [Option.some.injEq, Prod.mk.injEq] at h
        obtain ⟨h1, -⟩ := h
        subst h1
        simp
      · rw [if_neg h1] at h
        by_cases h2 : cnt + 1 = 2 ∧ ch = []
        · rw [if_pos h2] at h
          cases pt with
          | none => simp at h
          | some q =>
            simp only [] at h
            by_cases h3 : should_merge q p
            · rw [if_pos h3] at h
              simp only [Option.some.injEq, Prod.mk.injEq] at h
              obtain ⟨h1, -⟩ := h
              subst h1
              simp
            · rw [if_neg h3] at h
              cases ha : BHNode.add_to_child fuel
                  ((BHNode.mk th (comUpdate c p) (some q) (cnt + 1) s x y z ch).split) q with
              | none => rw [ha] at h; simp at h
              | some r =>
                obtain ⟨m2, d2⟩ := r
                rw [ha] at h
                simp only [] at h
                cases hb : BHNode.add_to_child fuel (m2.withPoint none) p with
                | none => rw [hb] at h; simp at h
                | some r2 =>
                  obtain ⟨m3, d3⟩ := r2
                  rw [hb] at h
                  simp only [Option.some.injEq, Prod.mk.injEq] at h
                  obtain ⟨h1, -⟩ := h
                  subst h1
                  have fa := add_to_child_fields fuel _ q m2 d2 ha
                  have fb := add_to_child_fields fuel _ p m3 d3 hb
                  simp only [BHNode.withPoint_theta, BHNode.withPoint_center_of_mass,
                    BHNode.withPoint_region_size, BHNode.withPoint_xloc, BHNode.withPoint_yloc,
                    BHNode.withPoint_zloc, BHNode.split_theta, BHNode.split_center_of_mass,
                    BHNode.split_region_size, BHNode.split_xloc, BHNode.split_yloc,
                    BHNode.split_zloc, BHNode.theta_mk, BHNode.center_of_mass_mk,
                    BHNode.region_size_mk, BHNode.xloc_mk, BHNode.yloc_mk, BHNode.zloc_mk]
                    at fa fb
                  simp [fa, fb]
        · rw [if_neg h2] at h
          cases hc : BHNode.add_to_child fuel
              (BHNode.mk th (comUpdate c p) pt (cnt + 1) s x y z ch) p with
          | none => rw [hc] at h; simp at h
          | some r =>
            obtain ⟨m3, d3⟩ := r
            rw [hc] at h
            simp only [Option.some.injEq, Prod.mk.injEq] at h
            obtain ⟨h1, -⟩ := h
            subst h1
            have fc := add_to_child_fields fuel _ p m3 d3 hc
            simp only [BHNode.theta_mk, BHNode.center_of_mass_mk, BHNode.region_size_mk,
              BHNode.xloc_mk, BHNode.yloc_mk, BHNode.zloc_mk] at fc
            simp [fc]

/-- Inserting the first body into a fresh node stores it as the leaf body. -/
theorem add_point_new (fuel : ℕ) (th s x y z : ℝ) (p : Point) :
    BHNode.add_point (fuel + 1) (BHNode.new th s x y z) p
      = some (.mk th (comUpdate Point.new_zero p) (some p) 1 s x y z [], 0) := by
  rw [BHNode.new, BHNode.add_point.eq_def]
  simp only []
  rw [if_pos (by norm_num)]
  norm_num

/-- Inserting a second body that triggers the merge policy collapses the
leaf to a single synthetic body at the combined aggregate. -/
theorem add_point_merge (fuel : ℕ) (th : ℝ) (c q : Point) (s x y z : ℝ) (p : Point)
    (h : should_merge q p) :
    BHNode.add_point (fuel + 1) (.mk th c (some q) 1 s x y z []) p
      = some (.mk th (comUpdate c p) (some (comUpdate c p)) 1 s x y z [], -1) := by
  rw [BHNode.add_point.eq_def]
  simp only []
  rw [if_neg (by norm_num), if_pos (show (1 : ℤ) + 1 = 2 ∧ True by norm_num)]
  rw [if_pos h]
  norm_num

/-- Sequential insertion preserves the root's geometry. -/
theorem insertAll_geom (fuel : ℕ) (ps : List Point) (n r : BHNode)
    (h : insertAll fuel n ps = some r) :
    r.region_size = n.region_size ∧ r.xloc = n.xloc ∧ r.yloc = n.yloc ∧
    r.zloc = n.zloc := by
  induction ps generalizing n with
  | nil =>
    rw [insertAll] at h
    simp only [Option.some.injEq] at h
    subst h
    exact ⟨rfl, rfl, rfl, rfl⟩
  | cons p rest ih =>
    rw [insertAll] at h
    cases ha : BHNode.add_point fuel n p with
    | none => rw [ha] at h; simp at h
    | some r2 =>
      obtain ⟨n2, d2⟩ := r2
      rw [ha] at h
      simp only [] at h
      have g := add_point_fields fuel n p n2 d2 ha
      have g2 := ih n2 h
      exact ⟨g2.1.trans g.2.2.1, g2.2.1.trans g.2.2.2.1, g2.2.2.1.trans g.2.2.2.2.1,
        g2.2.2.2.trans g.2.2.2.2.2⟩

/-- The running 3-coordinate min fold never exceeds its initial value. -/
theorem foldl_min3_le_init (ps : List Point) (a : ℝ) :
    ps.foldl (fun acc p => min p.z (min p.y (min p.x acc))) a ≤ a := by
  induction ps generalizing a with
  | nil => simp
  | cons c rest ih =>
    simp only [List.foldl_cons]
    exact le_trans (ih _)
      ((min_le_right _ _).trans ((min_le_right _ _).trans (min_le_right _ _)))

/-- The running 3-coordinate min fold bounds every coordinate of every
member from below. -/
theorem foldl_min3_le (ps : List Point) (a : ℝ) (q : Point) (hq : q ∈ ps) :
    ps.foldl (fun acc p => min p.z (min p.y (min p.x acc))) a ≤ q.x ∧
    ps.foldl (fun acc p => min p.z (min p.y (min p.x acc))) a ≤ q.y ∧
    ps.foldl (fun acc p => min p.z (min p.y (min p.x acc))) a ≤ q.z := by
  induction ps generalizing a with
  | nil => simp at hq
  | cons c rest ih =>
    simp only [List.foldl_cons]
    rcases List.mem_cons.mp hq with rfl | hq2
    · have hinit := foldl_min3_le_init rest (min q.z (min q.y (min q.x a)))
      refine ⟨le_trans hinit ?_, le_trans hinit ?_, le_trans hinit ?_⟩
      · exact (min_le_right _ _).trans ((min_le_right _ _).trans (min_le_left _ _))
      · exact (min_le_right _ _).trans (min_le_left _ _)
      · exact min_le_left _ _
    · exact ih _ hq2

/-- The running 3-coordinate max fold never drops below its initial value. -/
theorem foldl_max3_ge_init (ps : List Point) (a : ℝ) :
    a ≤ ps.foldl (fun acc p => max p.z (max p.y (max p.x acc))) a := by
  induction ps generalizing a with
  | nil => simp
  | cons c rest ih =>
    simp only [List.foldl_cons]
    exact le_trans ((le_max_right _ _).trans ((le_max_right _ _).trans (le_max_right _ _)))
      (ih _)

/-- The running 3-coordinate max fold bounds every coordinate of every
member from above. -/
theorem foldl_max3_ge (ps : List Point) (a : ℝ) (q : Point) (hq : q ∈ ps) :
    q.x ≤ ps.foldl (fun acc p => max p.z (max p.y (max p.x acc))) a ∧
    q.y ≤ ps.foldl (fun acc p => max p.z (max p.y (max p.x acc))) a ∧
    q.z ≤ ps.foldl (fun acc p => max p.z (max p.y (max p.x acc))) a := by
  induction ps generalizing a with
  | nil => simp at hq
  | cons c rest ih =>
    simp only [List.foldl_cons]
    rcases List.mem_cons.mp hq with rfl | hq2
    · have hinit := foldl_max3_ge_init rest (max q.z (max q.y (max q.x a)))
      refine ⟨le_trans ?_ hinit, le_trans ?_ hinit, le_trans ?_ hinit⟩
      · exact (le_max_left _ _).trans ((le_max_right _ _).trans (le_max_right _ _))
      · exact (le_max_left _ _).trans (le_max_right _ _)
      · exact le_max_left _ _
    · exact ih _ hq2

/-- Evaluate a square root at a perfect square. -/
theorem sqrt_eval (a b : ℝ) (hb : 0 ≤ b) (h : a = b * b) : Real.sqrt a = b := by
  rw [h, Real.sqrt_mul_self hb]

/-- The two-body force is non-zero for positive masses at distinct positions. -/
theorem force_from_ne_zero (p q : Point) (hp : 0 < p.mass) (hq : 0 < q.mass)
    (hne : p.x ≠ q.x ∨ p.y ≠ q.y ∨ p.z ≠ q.z) :
    p.force_from q ≠ Vec3d.new_zero := by
  have hG : (0 : ℝ) < G := by norm_num [G]
  have hsq : 0 < (q.x - p.x) * (q.x - p.x) + (q.y - p.y) * (q.y - p.y) +
      (q.z - p.z) * (q.z - p.z) := by
    rcases hne with h1 | h1 | h1
    · nlinarith [mul_self_pos.mpr (sub_ne_zero.mpr (Ne.symm h1)),
        mul_self_nonneg (q.y - p.y), mul_self_nonneg (q.z - p.z)]
    · nlinarith [mul_self_pos.mpr (sub_ne_zero.mpr (Ne.symm h1)),
        mul_self_nonneg (q.x - p.x), mul_self_nonneg (q.z - p.z)]
    · nlinarith [mul_self_pos.mpr (sub_ne_zero.mpr (Ne.symm h1)),
        mul_self_nonneg (q.x - p.x), mul_self_nonneg (q.y - p.y)]
  have hd : 0 < p.distance_to q := by
    rw [Point.distance_to]
    exact Real.sqrt_pos.mpr hsq
  have hf : 0 < G * p.mass * q.mass / (p.distance_to q * p.distance_to q) := by
    exact div_pos (by positivity) (by positivity)
  intro hzero
  rcases hne with h1 | h1 | h1
  · have hc := congrArg Vec3d.x hzero
    have hc2 : (q.x - p.x) / p.distance_to q *
        (G * p.mass * q.mass / (p.distance_to q * p.distance_to q)) = 0 := by
      simpa [Point.force_from, Vec3d.new_zero, Vec3d.new] using hc
    exact mul_ne_zero (div_ne_zero (sub_ne_zero.mpr (Ne.symm h1)) hd.ne') hf.ne' hc2
  · have hc := congrArg Vec3d.y hzero
    have hc2 : (q.y - p.y) / p.distance_to q *
        (G * p.mass * q.mass / (p.distance_to q * p.distance_to q)) = 0 := by
      simpa [Point.force_from, Vec3d.new_zero, Vec3d.new] using hc
    exact mul_ne_zero (div_ne_zero (sub_ne_zero.mpr (Ne.symm h1)) hd.ne') hf.ne' hc2
  · have hc := congrArg Vec3d.z hzero
    have hc2 : (q.z - p.z) / p.distance_to q *
        (G * p.mass * q.mass / (p.distance_to q * p.distance_to q)) = 0 := by
      simpa [Point.force_from, Vec3d.new_zero, Vec3d.new] using hc
    exact mul_ne_zero (div_ne_zero (sub_ne_zero.mpr (Ne.symm h1)) hd.ne') hf.ne' hc2

/-- The distance between the two coincident merge-test bodies is zero, and
`should_merge` holds for them in both orders. -/
theorem c4_should_merge : should_merge c4p1 c4p2 ∧ should_merge c4p2 c4p1 := by
  have h0 : ∀ a b : Point, a.x = 1 → a.y = 1 → a.z = 1 → b.x = 1 → b.y = 1 → b.z = 1 →
      a.distance_to b = 0 := by
    intro a b hx hy hz hx2 hy2 hz2
    rw [Point.distance_to, hx, hy, hz, hx2, hy2, hz2]
    norm_num
  constructor
  · left
    rw [h0 c4p1 c4p2 (by norm_num [c4p1]) (by norm_num [c4p1]) (by norm_num [c4p1])
      (by norm_num [c4p2]) (by norm_num [c4p2]) (by norm_num [c4p2])]
    norm_num [c4p1, G, C]
  · left
    rw [h0 c4p2 c4p1 (by norm_num [c4p2]) (by norm_num [c4p2]) (by norm_num [c4p2])
      (by norm_num [c4p1]) (by norm_num [c4p1]) (by norm_num [c4p1])]
    norm_num [c4p2, G, C]

/-- C4: inserting into an empty tree two bodies that satisfy the merge
policy yields a tree whose root has count 1 and a single stored leaf body
whose mass is the sum of the two masses; and `should_merge a b` holds
exactly when the distance between `a` and `b` is at most either body's
merge radius. -/
theorem merge_two_bodies (f1 f2 : ℕ) (th s x y z : ℝ) (p1 p2 : Point)
    (hm : should_merge p1 p2) :
    (BHNode.add_point (f1 + 1) (BHNode.new th s x y z) p1).bind
        (fun r => BHNode.add_point (f2 + 1) r.1 p2)
      = some (.mk th (comUpdate (comUpdate Point.new_zero p1) p2)
          (some (comUpdate (comUpdate Point.new_zero p1) p2)) 1 s x y z [], -1) ∧
    (comUpdate (comUpdate Point.new_zero p1) p2).mass = p1.mass + p2.mass ∧
    (∀ a b : Point, should_merge a b ↔
      (a.distance_to b ≤ a.schwarzchild_radius ∨
        a.distance_to b ≤ b.schwarzchild_radius)) := by
  refine ⟨?_, ?_, fun a b => Iff.rfl⟩
  · rw [add_point_new f1 th s x y z p1]
    simp only [Option.some_bind]
    exact add_point_merge f2 th (comUpdate Point.new_zero p1) p1 s x y z p2 hm
  · simp [comUpdate, Point.new_zero]

/-- Witness for C4's theorem at the coincident pair `c4p1`, `c4p2`. -/
theorem merge_two_bodies_witness :
    should_merge c4p1 c4p2 ∧
    (BHNode.add_point 1 (BHNode.new 1 10 0 0 0) c4p1).bind
        (fun r => BHNode.add_point 1 r.1 c4p2)
      = some (.mk 1 (comUpdate (comUpdate Point.new_zero c4p1) c4p2)
          (some (comUpdate (comUpdate Point.new_zero c4p1) c4p2)) 1 10 0 0 0 [], -1) ∧
    (comUpdate (comUpdate Point.new_zero c4p1) c4p2).mass = c4p1.mass + c4p2.mass := by
  have hm := c4_should_merge.1
  have main := merge_two_bodies 0 0 1 10 0 0 0 c4p1 c4p2 hm
  exact ⟨hm, main.1, main.2.1⟩

/-- Two insertions into an empty node give the mass-weighted mean position,
componentwise. -/
theorem comUpdate_two (q r : Point) (hq : q.mass ≠ 0) (hqr : q.mass + r.mass ≠ 0) :
    (comUpdate (comUpdate Point.new_zero q) r).x
        = (q.mass * q.x + r.mass * r.x) / (q.mass + r.mass) ∧
    (comUpdate (comUpdate Point.new_zero q) r).y
        = (q.mass * q.y + r.mass * r.y) / (q.mass + r.mass) ∧
    (comUpdate (comUpdate Point.new_zero q) r).z
        = (q.mass * q.z + r.mass * r.z) / (q.mass + r.mass) := by
  refine ⟨?_, ?_, ?_⟩ <;>
  · simp [comUpdate, Point.new_zero]
    field_simp
    ring

/-- C8: for two bodies of positive mass inserted into an empty node, the
resulting aggregate position is `(m1*p1 + m2*p2)/(m1+m2)` componentwise, and
the insertion order does not change it. -/
theorem com_two_bodies (f1 f2 f3 f4 : ℕ) (th s x y z : ℝ) (p1 p2 : Point)
    (hm1 : 0 < p1.mass) (hm2 : 0 < p2.mass)
    (n1 n2 m1 m2 : BHNode) (d1 d2 e1 e2 : ℤ)
    (h1 : BHNode.add_point f1 (BHNode.new th s x y z) p1 = some (n1, d1))
    (h2 : BHNode.add_point f2 n1 p2 = some (n2, d2))
    (g1 : BHNode.add_point f3 (BHNode.new th s x y z) p2 = some (m1, e1))
    (g2 : BHNode.add_point f4 m1 p1 = some (m2, e2)) :
    n2.center_of_mass.x = (p1.mass * p1.x + p2.mass * p2.x) / (p1.mass + p2.mass) ∧
    n2.center_of_mass.y = (p1.mass * p1.y + p2.mass * p2.y) / (p1.mass + p2.mass) ∧
    n2.center_of_mass.z = (p1.mass * p1.z + p2.mass * p2.z) / (p1.mass + p2.mass) ∧
    m2.center_of_mass.x = n2.center_of_mass.x ∧
    m2.center_of_mass.y = n2.center_of_mass.y ∧
    m2.center_of_mass.z = n2.center_of_mass.z := by
  have c1 := (add_point_fields f1 _ p1 n1 d1 h1).1
  have c2 := (add_point_fields f2 _ p2 n2 d2 h2).1
  have c3 := (add_point_fields f3 _ p2 m1 e1 g1).1
  have c4 := (add_point_fields f4 _ p1 m2 e2 g2).1
  rw [show (BHNode.new th s x y z).center_of_mass = Point.new_zero from rfl] at c1 c3
  rw [c1] at c2
  rw [c3] at c4
  have t1 := comUpdate_two p1 p2 hm1.ne' (by positivity)
  have t2 := comUpdate_two p2 p1 hm2.ne' (by positivity)
  rw [c2, c4]
  refine ⟨t1.1, t1.2.1, t1.2.2, ?_, ?_, ?_⟩
  · rw [t2.1, t1.1, add_comm (p2.mass * p2.x), add_comm p2.mass]
  · rw [t2.2.1, t1.2.1, add_comm (p2.mass * p2.y), add_comm p2.mass]
  · rw [t2.2.2, t1.2.2, add_comm (p2.mass * p2.z), add_comm p2.mass]

/-- Witness for C8's theorem at the coincident pair `c4p1` (mass 1),
`c4p2` (mass 2), inserted in both orders. -/
theorem com_two_bodies_witness :
    0 < c4p1.mass ∧ 0 < c4p2.mass ∧
    BHNode.add_point 1 (BHNode.new 1 10 0 0 0) c4p1 = some (c8n1, 0) ∧
    BHNode.add_point 1 c8n1 c4p2 = some (c8n2, -1) ∧
    BHNode.add_point 1 (BHNode.new 1 10 0 0 0) c4p2 = some (c8m1, 0) ∧
    BHNode.add_point 1 c8m1 c4p1 = some (c8m2, -1) ∧
    c8n2.center_of_mass.x
      = (c4p1.mass * c4p1.x + c4p2.mass * c4p2.x) / (c4p1.mass + c4p2.mass) ∧
    c8m2.center_of_mass.x = c8n2.center_of_mass.x := by
  have h1 : BHNode.add_point 1 (BHNode.new 1 10 0 0 0) c4p1 = some (c8n1, 0) :=
    add_point_new 0 1 10 0 0 0 c4p1
  have h2 : BHNode.add_point 1 c8n1 c4p2 = some (c8n2, -1) :=
    add_point_merge 0 1 (comUpdate Point.new_zero c4p1) c4p1 10 0 0 0 c4p2
      c4_should_merge.1
  have g1 : BHNode.add_point 1 (BHNode.new 1 10 0 0 0) c4p2 = some (c8m1, 0) :=
    add_point_new 0 1 10 0 0 0 c4p2
  have g2 : BHNode.add_point 1 c8m1 c4p1 = some (c8m2, -1) :=
    add_point_merge 0 1 (comUpdate Point.new_zero c4p2) c4p2 10 0 0 0 c4p1
      c4_should_merge.2
  have main := com_two_bodies 1 1 1 1 1 10 0 0 0 c4p1 c4p2
    (by norm_num [c4p1]) (by norm_num [c4p2]) c8n1 c8n2 c8m1 c8m2 0 (-1) 0 (-1)
    h1 h2 g1 g2
  exact ⟨by norm_num [c4p1], by norm_num [c4p2], h1, h2, g1, g2, main.1, main.2.2.2.1⟩

/-- C10: a tree into which no body was ever inserted has a childless root
with count 0 and no stored leaf body; enumerating its bodies unwraps the
missing body and panics (modelled by `none`), and therefore the step
transition `next` on the empty tree panics as well instead of returning an
empty next tree. -/
theorem empty_tree_get_points_panics :
    ∀ theta graph_size x y z : ℝ,
      (BHTree.new theta graph_size x y z).root.get_points = none ∧
      ∀ (fuel : ℕ) (dt : ℝ),
        (BHTree.new theta graph_size x y z).next fuel dt = none := by
  intro th s x y z
  have hgp : (BHTree.new th s x y z).root.get_points = none := by
    rw [BHTree.new]
    show (BHNode.new th s x y z).get_points = none
    rw [BHNode.new, BHNode.get_points]
    simp
  refine ⟨hgp, ?_⟩
  intro fuel dt
  rw [BHTree.next]
  rw [show (BHTree.new th s x y z).root = BHNode.new th s x y z from rfl]
  rw [show (BHNode.new th s x y z).get_points = none from hgp]

theorem forceSum_nil (dt : ℝ) (p : Point) : forceSum [] dt p = Vec3d.new_zero := by
  rw [forceSum.eq_def]

theorem forceSum_cons (c : BHNode) (rest : List BHNode) (dt : ℝ) (p : Point) :
    forceSum (c :: rest) dt p = c.calculate_force dt p + forceSum rest dt p := by
  rw [forceSum.eq_def]

/-- The aggregate `c6com` is at distance 3 from the query body `c6p`. -/
theorem c6com_dist : c6com.distance_to c6p = 3 := by
  rw [Point.distance_to]
  exact sqrt_eval _ 3 (by norm_num) (by norm_num [c6com, c6p])

/-- C6 counterexample: a childless node with count 1 whose aggregate is at
distance 3 from the query body, with region 5 and theta 1 (so the opening
test fails): `calculate_force` returns the zero vector even though the node
is not empty and the positions do not coincide. -/
theorem calculate_force_zero_beyond_guard :
    BHNode.calculate_force c6node 1 c6p = Vec3d.new_zero ∧
    c6node.count ≠ 0 ∧ c6p ≠ c6node.center_of_mass ∧
    c6p.x ≠ c6node.center_of_mass.x := by
  refine ⟨?_, by norm_num [c6node], ?_, by norm_num [c6node, c6p, c6com]⟩
  · rw [c6node, BHNode.calculate_force.eq_def]
    simp only []
    have hg : ¬ (c6p = c6com ∨ (1 : ℤ) = 0) := by
      rintro (h | h)
      · have := congrArg Point.x h
        norm_num [c6p, c6com] at this
      · norm_num at h
    rw [if_neg hg]
    have hrat : ¬ ((5 : ℝ) / c6com.distance_to c6p < 1) := by
      rw [c6com_dist]; norm_num
    rw [if_neg hrat]
    exact forceSum_nil 1 c6p
  · intro h
    have := congrArg Point.x h
    norm_num [c6p, c6node, c6com] at this

/-- C6 (amended): `calculate_force` contributes exactly zero via its guard
precisely when the node is empty or the query body equals the aggregate
(the source compares the whole `Point`, mass and velocity included, not
just positions); outside the guard, the approximation branch contributes a
non-zero force whenever both masses are positive and the positions differ
— but the recursion branch can still return zero (see the counterexample
with a childless node). -/
theorem calculate_force_zero_guard :
    (∀ (n : BHNode) (dt : ℝ) (p : Point),
        p = n.center_of_mass ∨ n.count = 0 →
        n.calculate_force dt p = Vec3d.new_zero) ∧
    (∀ (n : BHNode) (dt : ℝ) (p : Point),
        ¬ (p = n.center_of_mass ∨ n.count = 0) →
        n.region_size / n.center_of_mass.distance_to p < n.theta →
        0 < p.mass → 0 < n.center_of_mass.mass →
        (p.x ≠ n.center_of_mass.x ∨ p.y ≠ n.center_of_mass.y ∨
          p.z ≠ n.center_of_mass.z) →
        n.calculate_force dt p ≠ Vec3d.new_zero) := by
  constructor
  · intro n dt p h
    cases n with
    | mk th c pt cnt s x y z ch =>
      simp only [BHNode.center_of_mass_mk, BHNode.count_mk] at h
      rw [BHNode.calculate_force.eq_def]
      simp only []
      rw [if_pos h]
  · intro n dt p h hr hp hm hne
    cases n with
    | mk th c pt cnt s x y z ch =>
      simp only [BHNode.center_of_mass_mk, BHNode.count_mk] at h hne
      simp only [BHNode.center_of_mass_mk, BHNode.region_size_mk, BHNode.theta_mk] at hr
      rw [BHNode.calculate_force.eq_def]
      simp only []
      rw [if_neg h, if_pos hr]
      exact force_from_ne_zero p c hp hm hne

/-- Witness for C6's amended theorem: zero at an empty node, and a non-zero
approximation contribution at `c6nodeNear` (region 1, ratio 1/3 < theta 1). -/
theorem calculate_force_zero_guard_witness :
    ((BHNode.new 1 5 0 0 0).count = 0 ∧
      (BHNode.new 1 5 0 0 0).calculate_force 1 c6p = Vec3d.new_zero) ∧
    (¬ (c6p = c6nodeNear.center_of_mass ∨ c6nodeNear.count = 0) ∧
      c6nodeNear.region_size / c6nodeNear.center_of_mass.distance_to c6p
        < c6nodeNear.theta ∧
      BHNode.calculate_force c6nodeNear 1 c6p ≠ Vec3d.new_zero) := by
  have hcnt : (BHNode.new 1 5 0 0 0).count = 0 := by norm_num [BHNode.new]
  have hg : ¬ (c6p = c6nodeNear.center_of_mass ∨ c6nodeNear.count = 0) := by
    rintro (h | h)
    · have := congrArg Point.x h
      norm_num [c6p, c6nodeNear, c6com] at this
    · norm_num [c6nodeNear] at h
  have hr : c6nodeNear.region_size / c6nodeNear.center_of_mass.distance_to c6p
      < c6nodeNear.theta := by
    rw [show c6nodeNear.center_of_mass = c6com from rfl, c6com_dist]
    norm_num [c6nodeNear]
  refine ⟨⟨hcnt, ?_⟩, hg, hr, ?_⟩
  · exact calculate_force_zero_guard.1 (BHNode.new 1 5 0 0 0) 1 c6p (Or.inr hcnt)
  · exact calculate_force_zero_guard.2 c6nodeNear 1 c6p hg hr
      (by norm_num [c6p]) (by norm_num [c6nodeNear, c6com])
      (Or.inl (by norm_num [c6p, c6nodeNear, c6com]))

/-- C7: after a step transition, every updated body position lies strictly
inside the rebuilt root's cube `[origin, origin + edge)` on all three axes
(the cube is fitted to the min/max updated coordinates with a ±1 margin). -/
theorem rebuilt_root_contains_all (fuel : ℕ) (t : BHTree) (dt : ℝ)
    (ps : List Point) (t2 : BHTree)
    (hps : t.root.get_points = some ps)
    (hnext : t.next fuel dt = some t2) :
    ∀ q ∈ ps.map (fun p => p.apply_force dt (t.root.calculate_force dt p)),
      t2.root.xloc < q.x ∧ q.x < t2.root.xloc + t2.root.region_size ∧
      t2.root.yloc < q.y ∧ q.y < t2.root.yloc + t2.root.region_size ∧
      t2.root.zloc < q.z ∧ q.z < t2.root.zloc + t2.root.region_size := by
  intro q hq
  rw [BHTree.next, hps] at hnext
  simp only [] at hnext
  generalize hNPS : ps.map (fun p => p.apply_force dt (t.root.calculate_force dt p))
      = nps at hnext hq
  set md := nps.foldl (fun acc p => min p.z (min p.y (min p.x acc))) f64MAX with hmd
  set mx := nps.foldl (fun acc p => max p.z (max p.y (max p.x acc))) f64MIN with hmx
  cases hins : insertAll fuel
      (BHNode.new t.theta (mx + 1 - (md - 1)) (md - 1) (md - 1) (md - 1)) nps with
  | none => rw [hins] at hnext; simp at hnext
  | some r =>
    rw [hins] at hnext
    simp only [Option.some.injEq] at hnext
    subst hnext
    have g := insertAll_geom fuel nps _ r hins
    simp only [BHNode.new, BHNode.region_size_mk, BHNode.xloc_mk, BHNode.yloc_mk,
      BHNode.zloc_mk] at g
    have hmin := foldl_min3_le nps f64MAX q hq
    have hmax := foldl_max3_ge nps f64MIN q hq
    rw [← hmd] at hmin
    rw [← hmx] at hmax
    show r.xloc < q.x ∧ q.x < r.xloc + r.region_size ∧ r.yloc < q.y ∧
      q.y < r.yloc + r.region_size ∧ r.zloc < q.z ∧ q.z < r.zloc + r.region_size
    rw [g.1, g.2.1, g.2.2.1, g.2.2.2]
    refine ⟨by linarith [hmin.1], by linarith [hmax.1], by linarith [hmin.2.1],
      by linarith [hmax.2.1], by linarith [hmin.2.2], by linarith [hmax.2.2]⟩

theorem foldl_count_shift (cs : List BHNode) (a : ℤ) :
    cs.foldl (fun acc c => acc + c.count) a
      = a + cs.foldl (fun acc c => acc + c.count) 0 := by
  induction cs generalizing a with
  | nil => simp
  | cons c rest ih =>
    simp only [List.foldl_cons]
    rw [ih (a + c.count), ih (0 + c.count)]
    ring

theorem countSum_cons (c : BHNode) (rest : List BHNode) :
    countSum (c :: rest) = c.count + countSum rest := by
  simp only [countSum, List.foldl_cons]
  rw [foldl_count_shift rest (0 + c.count)]
  ring

theorem countSum_nonneg (cs : List BHNode) (h : ∀ c ∈ cs, 0 ≤ c.count) :
    0 ≤ countSum cs := by
  induction cs with
  | nil => simp [countSum]
  | cons c rest ih =>
    rw [countSum_cons]
    have h1 := h c (by simp)
    have h2 := ih (fun d hd => h d (by simp [hd]))
    omega

/-- Inversion of the well-formedness predicate. -/
theorem Wf_inv (th : ℝ) (c : Point) (pt : Option Point) (cnt : ℤ) (s x y z : ℝ)
    (ch : List BHNode) (h : Wf (.mk th c pt cnt s x y z ch)) :
    0 < s ∧ 0 ≤ cnt ∧
    (ch = [] → (cnt = 0 ∧ pt = none) ∨ (cnt = 1 ∧ pt.isSome)) ∧
    (ch ≠ [] → pt = none ∧ 1 ≤ cnt ∧ cnt = countSum ch ∧
      ch.map geom4 = octGeoms s x y z) ∧
    (∀ cc ∈ ch, Wf cc) := by
  cases h with
  | intro _ _ _ _ _ _ _ _ _ hs hcnt hleaf hbranch hch =>
    exact ⟨hs, hcnt, hleaf, hbranch, hch⟩

theorem Wf.count_nonneg (n : BHNode) (h : Wf n) : 0 ≤ n.count := by
  cases n with
  | mk th c pt cnt s x y z ch =>
    simpa using (Wf_inv th c pt cnt s x y z ch h).2.1

/-- A fresh node with positive edge is well-formed. -/
theorem Wf_new (th s x y z : ℝ) (hs : 0 < s) : Wf (BHNode.new th s x y z) := by
  rw [BHNode.new]
  exact Wf.intro _ _ _ _ _ _ _ _ _ hs (le_refl 0)
    (fun _ => Or.inl ⟨rfl, rfl⟩) (fun hne => absurd rfl hne)
    (fun cc hc => by simp at hc)

theorem childContains_iff (c : BHNode) (p : Point) :
    childContains c p ↔ inCube c.xloc c.yloc c.zloc c.region_size p := by
  rw [childContains, inCube]
  tauto

/-- The 8 octants tile the parent cube: any in-cube body is contained in
some child whose geometry list is `octGeoms`. -/
theorem octants_cover (s x y z : ℝ) (p : Point) (ch : List BHNode)
    (hg : ch.map geom4 = octGeoms s x y z) (hp : inCube x y z s p) :
    ∃ c ∈ ch, childContains c p := by
  obtain ⟨hpx1, hpx2, hpy1, hpy2, hpz1, hpz2⟩ := hp
  cases ch with
  | nil => simp [octGeoms] at hg
  | cons c0 ch =>
  cases ch with
  | nil => simp [octGeoms] at hg
  | cons c1 ch =>
  cases ch with
  | nil => simp [octGeoms] at hg
  | cons c2 ch =>
  cases ch with
  | nil => simp [octGeoms] at hg
  | cons c3 ch =>
  cases ch with
  | nil => simp [octGeoms] at hg
  | cons c4 ch =>
  cases ch with
  | nil => simp [octGeoms] at hg
  | cons c5 ch =>
  cases ch with
  | nil => simp [octGeoms] at hg
  | cons c6 ch =>
  cases ch with
  | nil => simp [octGeoms] at hg
  | cons c7 ch =>
  cases ch with
  | cons c8 ch => simp [octGeoms] at hg
  | nil =>
  simp only [octGeoms, geom4, List.map_cons, List.map_nil, List.cons.injEq,
    Prod.mk.injEq, and_true] at hg
  obtain ⟨⟨g0s, g0x, g0y, g0z⟩, ⟨g1s, g1x, g1y, g1z⟩, ⟨g2s, g2x, g2y, g2z⟩,
    ⟨g3s, g3x, g3y, g3z⟩, ⟨g4s, g4x, g4y, g4z⟩, ⟨g5s, g5x, g5y, g5z⟩,
    ⟨g6s, g6x, g6y, g6z⟩, g7s, g7x, g7y, g7z⟩ := hg
  by_cases hx : p.x < x + s / 2
  · by_cases hy : p.y < y + s / 2
    · by_cases hz : p.z < z + s / 2
      · refine ⟨c0, by simp, ?_⟩
        rw [childContains, g0s, g0x, g0y, g0z]
        exact ⟨⟨hpx1, hx⟩, ⟨hpy1, hy⟩, hpz1, hz⟩
      · rw [not_lt] at hz
        refine ⟨c1, by simp, ?_⟩
        rw [childContains, g1s, g1x, g1y, g1z]
        exact ⟨⟨hpx1, hx⟩, ⟨hpy1, hy⟩, hz, by linarith⟩
    · rw [not_lt] at hy
      by_cases hz : p.z < z + s / 2
      · refine ⟨c2, by simp, ?_⟩
        rw [childContains, g2s, g2x, g2y, g2z]
        exact ⟨⟨hpx1, hx⟩, ⟨hy, by linarith⟩, hpz1, hz⟩
      · rw [not_lt] at hz
        refine ⟨c3, by simp, ?_⟩
        rw [childContains, g3s, g3x, g3y, g3z]
        exact ⟨⟨hpx1, hx⟩, ⟨hy, by linarith⟩, hz, by linarith⟩
  · rw [not_lt] at hx
    by_cases hy : p.y < y + s / 2
    · by_cases hz : p.z < z + s / 2
      · refine ⟨c4, by simp, ?_⟩
        rw [childContains, g4s, g4x, g4y, g4z]
        exact ⟨⟨hx, by linarith⟩, ⟨hpy1, hy⟩, hpz1, hz⟩
      · rw [not_lt] at hz
        refine ⟨c5, by simp, ?_⟩
        rw [childContains, g5s, g5x, g5y, g5z]
        exact ⟨⟨hx, by linarith⟩, ⟨hpy1, hy⟩, hz, by linarith⟩
    · rw [not_lt] at hy
      by_cases hz : p.z < z + s / 2
      · refine ⟨c6, by simp, ?_⟩
        rw [childContains, g6s, g6x, g6y, g6z]
        exact ⟨⟨hx, by linarith⟩, ⟨hy, by linarith⟩, hpz1, hz⟩
      · rw [not_lt] at hz
        refine ⟨c7, by simp, ?_⟩
        rw [childContains, g7s, g7x, g7y, g7z]
        exact ⟨⟨hx, by linarith⟩, ⟨hy, by linarith⟩, hz, by linarith⟩

theorem split_octNodes (th : ℝ) (c : Point) (pt : Option Point) (cnt : ℤ)
    (s x y z : ℝ) (ch : List BHNode) :
    (BHNode.mk th c pt cnt s x y z ch).split
      = .mk th c pt cnt s x y z (octNodes th s x y z) := rfl

theorem octNodes_map_geom4 (th s x y z : ℝ) :
    (octNodes th s x y z).map geom4 = octGeoms s x y z := rfl

theorem octNodes_wf (th s x y z : ℝ) (hs : 0 < s) :
    ∀ c ∈ octNodes th s x y z, Wf c := by
  intro c hc
  simp only [octNodes, List.mem_cons, List.not_mem_nil, or_false] at hc
  have hhalf : 0 < s / 2 := by linarith
  rcases hc with rfl | rfl | rfl | rfl | rfl | rfl | rfl | rfl <;>
    exact Wf_new _ _ _ _ _ hhalf

theorem octNodes_countSum (th s x y z : ℝ) :
    countSum (octNodes th s x y z) = 0 := by
  simp [octNodes, countSum]

/-- Preservation of well-formedness through the routing loop.  The first
argument packages the inductive hypothesis about `add_point` at fuel `f`. -/
theorem route_wf (f : ℕ)
    (hP : ∀ (n : BHNode) (p : Point) (n2 : BHNode) (d : ℤ),
      Wf n → inCube n.xloc n.yloc n.zloc n.region_size p →
      BHNode.add_point f n p = some (n2, d) →
      Wf n2 ∧ geom4 n2 = geom4 n ∧ n.count ≤ n2.count ∧ 1 ≤ n2.count) :
    ∀ (cs : List BHNode) (p : Point) (cs2 : List BHNode) (d : ℤ),
      (∀ c ∈ cs, Wf c) → routeChildren f cs p = some (cs2, d) →
      (∀ c ∈ cs2, Wf c) ∧ cs2.map geom4 = cs.map geom4 ∧
      countSum cs ≤ countSum cs2 ∧
      ((∃ c ∈ cs, childContains c p) → 1 ≤ countSum cs2) := by
  intro cs
  induction cs with
  | nil =>
    intro p cs2 d hwf hroute
    rw [routeChildren] at hroute
    simp only [Option.some.injEq, Prod.mk.injEq] at hroute
    obtain ⟨h1, -⟩ := hroute
    subst h1
    exact ⟨hwf, rfl, le_refl _, by rintro ⟨c, hc, -⟩; simp at hc⟩
  | cons c rest ih =>
    intro p cs2 d hwf hroute
    rw [routeChildren] at hroute
    by_cases hcont : childContains c p
    · rw [if_pos hcont] at hroute
      cases ha : BHNode.add_point f c p with
      | none => rw [ha] at hroute; simp at hroute
      | some r =>
        obtain ⟨c2, d2⟩ := r
        rw [ha] at hroute
        simp only [Option.some.injEq, Prod.mk.injEq] at hroute
        obtain ⟨h1, -⟩ := hroute
        subst h1
        have hwc := hwf c (by simp)
        have main := hP c p c2 d2 hwc ((childContains_iff c p).mp hcont) ha
        refine ⟨?_, ?_, ?_, ?_⟩
        · intro cc hcc
          rcases List.mem_cons.mp hcc with rfl | hcc2
          · exact main.1
          · exact hwf cc (by simp [hcc2])
        · simp [List.map_cons, main.2.1]
        · rw [countSum_cons, countSum_cons]
          have := main.2.2.1
          omega
        · intro _
          rw [countSum_cons]
          have h2 := main.2.2.2
          have h3 : 0 ≤ countSum rest := countSum_nonneg rest
            (fun e he => Wf.count_nonneg e (hwf e (by simp [he])))
          omega
    · rw [if_neg hcont] at hroute
      cases hrr : routeChildren f rest p with
      | none => rw [hrr] at hroute; simp at hroute
      | some r =>
        obtain ⟨rest2, d2⟩ := r
        rw [hrr] at hroute
        simp only [Option.some.injEq, Prod.mk.injEq] at hroute
        obtain ⟨h1, -⟩ := hroute
        subst h1
        have sub := ih p rest2 d2 (fun e he => hwf e (by simp [he])) hrr
        refine ⟨?_, ?_, ?_, ?_⟩
        · intro cc hcc
          rcases List.mem_cons.mp hcc with rfl | hcc2
          · exact hwf cc (by simp)
          · exact sub.1 cc hcc2
        · simp [List.map_cons, sub.2.1]
        · rw [countSum_cons, countSum_cons]
          have := sub.2.2.1
          omega
        · rintro ⟨cc, hcc, hcontc⟩
          rcases List.mem_cons.mp hcc with rfl | hcc2
          · exact absurd hcontc hcont
          · rw [countSum_cons]
            have h2 := sub.2.2.2 ⟨cc, hcc2, hcontc⟩
            have h3 : 0 ≤ c.count := Wf.count_nonneg c (hwf c (by simp))
            omega

/-- Inserting an in-cube body into a well-formed node preserves
well-formedness and geometry, and leaves the node non-empty with a count at
least its old one. -/
theorem add_point_wf : ∀ (f : ℕ) (n : BHNode) (p : Point) (n2 : BHNode) (d : ℤ),
    Wf n → inCube n.xloc n.yloc n.zloc n.region_size p →
    BHNode.add_point f n p = some (n2, d) →
    Wf n2 ∧ geom4 n2 = geom4 n ∧ n.count ≤ n2.count ∧ 1 ≤ n2.count := by
  intro f
  induction f with
  | zero =>
    intro n p n2 d hwf hin h
    rw [BHNode.add_point.eq_def] at h
    simp at h
  | succ f ih =>
    intro n p n2 d hwf hin h
    have hroute := route_wf f ih
    cases n with
    | mk th c pt cnt s x y z ch =>
      obtain ⟨hs, hcnt, hleaf, hbranch, hch⟩ := Wf_inv th c pt cnt s x y z ch hwf
      simp only [BHNode.xloc_mk, BHNode.yloc_mk, BHNode.zloc_mk,
        BHNode.region_size_mk] at hin
      rw [BHNode.add_point.eq_def] at h
      simp only [] at h
      by_cases h1 : cnt + 1 = 1
      · -- first body stored in an empty leaf
        have hch0 : ch = [] := by
          by_contra hne
          have := (hbranch hne).2.1
          omega
        subst hch0
        rw [if_pos h1] at h
        simp only [Option.some.injEq, Prod.mk.injEq] at h
        obtain ⟨hn2, -⟩ := h
        subst hn2
        refine ⟨?_, rfl, by simp only [BHNode.count_mk]; omega, by simp only [BHNode.count_mk]; omega⟩
        exact Wf.intro _ _ _ _ _ _ _ _ _ hs (by omega)
          (fun _ => Or.inr ⟨by omega, rfl⟩) (fun hne => absurd rfl hne)
          (fun cc hc => by simp at hc)
      · rw [if_neg h1] at h
        by_cases h2 : cnt + 1 = 2 ∧ ch = []
        · -- second body into a leaf
          obtain ⟨hc2, hch0⟩ := h2
          subst hch0
          have hcnt1 : cnt = 1 := by omega
          rcases hleaf rfl with ⟨hc0, -⟩ | ⟨-, hsome⟩
          · omega
          · obtain ⟨q, hq⟩ := Option.isSome_iff_exists.mp hsome
            subst hq
            rw [if_pos ⟨hc2, rfl⟩] at h
            simp only [] at h
            by_cases h3 : should_merge q p
            · -- merge: collapse back to a single leaf body
              rw [if_pos h3] at h
              simp only [Option.some.injEq, Prod.mk.injEq] at h
              obtain ⟨hn2, -⟩ := h
              subst hn2
              refine ⟨?_, rfl, by simp only [BHNode.count_mk]; omega, by simp only [BHNode.count_mk]; omega⟩
              exact Wf.intro _ _ _ _ _ _ _ _ _ hs (by omega)
                (fun _ => Or.inr ⟨by omega, rfl⟩) (fun hne => absurd rfl hne)
                (fun cc hc => by simp at hc)
            · -- split, re-insert the stored body, then insert p
              rw [if_neg h3, split_octNodes] at h
              cases ha : BHNode.add_to_child f
                  (BHNode.mk th (comUpdate c p) (some q) (cnt + 1) s x y z
                    (octNodes th s x y z)) q with
              | none => rw [ha] at h; simp at h
              | some r =>
                obtain ⟨m2, e1⟩ := r
                rw [ha] at h
                simp only [] at h
                rw [BHNode.add_to_child.eq_def] at ha
                simp only [] at ha
                cases hr1 : routeChildren f (octNodes th s x y z) q with
                | none => rw [hr1] at ha; simp at ha
                | some rr =>
                  obtain ⟨L2, e1b⟩ := rr
                  rw [hr1] at ha
                  simp only [Option.some.injEq, Prod.mk.injEq] at ha
                  obtain ⟨hm2, -⟩ := ha
                  subst hm2
                  simp only [BHNode.withPoint] at h
                  have rprops1 := hroute (octNodes th s x y z) q L2 e1b
                    (octNodes_wf th s x y z hs) hr1
                  cases hb : BHNode.add_to_child f
                      (BHNode.mk th (comUpdate c p) none (cnt + 1) s x y z L2) p with
                  | none => rw [hb] at h; simp at h
                  | some r2 =>
                    obtain ⟨m3, e2⟩ := r2
                    rw [hb] at h
                    simp only [] at h
                    rw [BHNode.add_to_child.eq_def] at hb
                    simp only [] at hb
                    cases hr2 : routeChildren f L2 p with
                    | none => rw [hr2] at hb; simp at hb
                    | some rr2 =>
                      obtain ⟨L3, e2b⟩ := rr2
                      rw [hr2] at hb
                      simp only [Option.some.injEq, Prod.mk.injEq] at hb
                      obtain ⟨hm3, -⟩ := hb
                      subst hm3
                      simp only [BHNode.withCount, BHNode.children_mk] at h
                      simp only [Option.some.injEq, Prod.mk.injEq] at h
                      obtain ⟨hn2, -⟩ := h
                      subst hn2
                      have rprops2 := hroute L2 p L3 e2b rprops1.1 hr2
                      have hgeoms2 : L2.map geom4 = octGeoms s x y z :=
                        rprops1.2.1.trans (octNodes_map_geom4 th s x y z)
                      have hgeoms3 : L3.map geom4 = octGeoms s x y z :=
                        rprops2.2.1.trans hgeoms2
                      have hcover := octants_cover s x y z p L2 hgeoms2 hin
                      have hone : 1 ≤ countSum L3 := rprops2.2.2.2 hcover
                      have hlen3 : L3.length = 8 := by
                        have := congrArg List.length hgeoms3
                        simpa [octGeoms] using this
                      refine ⟨?_, rfl, by simp only [BHNode.count_mk]; omega, by simp only [BHNode.count_mk]; omega⟩
                      refine Wf.intro _ _ _ _ _ _ _ _ _ hs (by omega) ?_ ?_ rprops2.1
                      · intro hnil
                        rw [hnil] at hlen3
                        simp at hlen3
                      · intro _
                        exact ⟨rfl, by omega, rfl, hgeoms3⟩
        · -- node already has children (or inconsistent count): route p down
          rw [if_neg h2] at h
          have hchne : ch ≠ [] := by
            intro hnil
            rcases hleaf hnil with ⟨hc0, -⟩ | ⟨hc1, -⟩
            · exact h1 (by omega)
            · exact h2 ⟨by omega, hnil⟩
          obtain ⟨hptnone, hcnt1, hcsum, hgeoms⟩ := hbranch hchne
          cases hc : BHNode.add_to_child f
              (BHNode.mk th (comUpdate c p) pt (cnt + 1) s x y z ch) p with
          | none => rw [hc] at h; simp at h
          | some r =>
            obtain ⟨m3, e3⟩ := r
            rw [hc] at h
            simp only [] at h
            rw [BHNode.add_to_child.eq_def] at hc
            simp only [] at hc
            cases hr3 : routeChildren f ch p with
            | none => rw [hr3] at hc; simp at hc
            | some rr3 =>
              obtain ⟨ch2, e3b⟩ := rr3
              rw [hr3] at hc
              simp only [Option.some.injEq, Prod.mk.injEq] at hc
              obtain ⟨hm3, -⟩ := hc
              subst hm3
              simp only [BHNode.withCount, BHNode.children_mk] at h
              simp only [Option.some.injEq, Prod.mk.injEq] at h
              obtain ⟨hn2, -⟩ := h
              subst hn2
              have rprops := hroute ch p ch2 e3b hch hr3
              have hgeoms2 : ch2.map geom4 = octGeoms s x y z :=
                rprops.2.1.trans hgeoms
              have hcover := octants_cover s x y z p ch hgeoms hin
              have hone : 1 ≤ countSum ch2 := rprops.2.2.2 hcover
              have hlen2 : ch2.length = 8 := by
                have := congrArg List.length hgeoms2
                simpa [octGeoms] using this
              have hmono : countSum ch ≤ countSum ch2 := rprops.2.2.1
              refine ⟨?_, rfl, by simp only [BHNode.count_mk]; omega, by simp only [BHNode.count_mk]; omega⟩
              refine Wf.intro _ _ _ _ _ _ _ _ _ hs (by omega) ?_ ?_ rprops.1
              · intro hnil
                rw [hnil] at hlen2
                simp at hlen2
              · intro _
                exact ⟨hptnone, by omega, rfl, hgeoms2⟩

/-- Sequential insertion of in-cube bodies preserves well-formedness. -/
theorem insertAll_wf (f : ℕ) (ps : List Point) :
    ∀ (n t : BHNode), Wf n →
      (∀ p ∈ ps, inCube n.xloc n.yloc n.zloc n.region_size p) →
      insertAll f n ps = some t → Wf t := by
  induction ps with
  | nil =>
    intro n t hwf _ h
    rw [insertAll] at h
    simp only [Option.some.injEq] at h
    subst h
    exact hwf
  | cons p rest ih =>
    intro n t hwf hin h
    rw [insertAll] at h
    cases ha : BHNode.add_point f n p with
    | none => rw [ha] at h; simp at h
    | some r =>
      obtain ⟨n2, d⟩ := r
      rw [ha] at h
      simp only [] at h
      have main := add_point_wf f n p n2 d hwf (hin p (by simp)) ha
      apply ih n2 t main.1 ?_ h
      intro q hq
      have g := main.2.1
      simp only [geom4, Prod.mk.injEq] at g
      rw [g.1, g.2.1, g.2.2.1, g.2.2.2]
      exact hin q (by simp [hq])

/-- Well-formedness implies the claimed structural invariant. -/
theorem Wf.structInv : ∀ (n : BHNode), Wf n → StructInv n := by
  intro n h
  induction h with
  | intro th c pt cnt s x y z ch hs hcnt hleaf hbranch hch ih =>
    refine StructInv.intro th c pt cnt s x y z ch ?_ ?_ ?_ ih
    · by_cases hne : ch = []
      · left; simp [hne]
      · right
        have hg := (hbranch hne).2.2.2
        have := congrArg List.length hg
        simpa [octGeoms] using this
    · intro hne
      exact (hbranch hne).2.2.1
    · intro hnil hcnt1
      rcases hleaf hnil with ⟨h0, -⟩ | ⟨-, hsome⟩
      · omega
      · exact hsome

/-- C5 (amended): for every sequence of insertions of bodies lying inside
the root's cube (with positive edge), the resulting tree satisfies the
structural invariant: every node has 0 or 8 children, every branch's count
is the sum of its children's counts, and every childless count-1 node
stores a leaf body.  (Without the in-cube precondition the invariant fails:
see the counterexample.) -/
theorem structural_invariant_in_bounds (f : ℕ) (th s x y z : ℝ) (ps : List Point)
    (t : BHNode) (hs : 0 < s) (hin : ∀ p ∈ ps, inCube x y z s p)
    (h : insertAll f (BHNode.new th s x y z) ps = some t) : StructInv t := by
  refine Wf.structInv t (insertAll_wf f ps (BHNode.new th s x y z) t
    (Wf_new th s x y z hs) ?_ h)
  simpa using hin

/-- Witness for C5's amended theorem: a single in-bounds insertion. -/
theorem structural_invariant_witness :
    (0 : ℝ) < 10 ∧ inCube 0 0 0 10 c9q ∧
    insertAll 1 (BHNode.new 1 10 0 0 0) [c9q]
      = some (.mk 1 c9q (some c9q) 1 10 0 0 0 []) ∧
    StructInv (.mk 1 c9q (some c9q) 1 10 0 0 0 []) := by
  have hcz : comUpdate Point.new_zero c9q = c9q := by
    norm_num [comUpdate, c9q, Point.new_zero, Point.new, Vec3d.new_zero, Vec3d.new]
  have hadd : BHNode.add_point 1 (BHNode.new 1 10 0 0 0) c9q
      = some (.mk 1 c9q (some c9q) 1 10 0 0 0 [], 0) := by
    have h := add_point_new 0 1 10 0 0 0 c9q
    rw [hcz] at h
    exact h
  have hins : insertAll 1 (BHNode.new 1 10 0 0 0) [c9q]
      = some (.mk 1 c9q (some c9q) 1 10 0 0 0 []) := by
    rw [insertAll, hadd]
    simp only []
    rw [insertAll]
  have hc : inCube 0 0 0 10 c9q := by
    norm_num [inCube, c9q]
  exact ⟨by norm_num, hc, hins,
    structural_invariant_in_bounds 1 1 10 0 0 0 [c9q] _ (by norm_num)
      (by intro p hp; simp only [List.mem_singleton] at hp; subst hp; exact hc) hins⟩

theorem c5_comz : comUpdate Point.new_zero (Point.new 1 20 0 0 Vec3d.new_zero)
    = Point.new 1 20 0 0 Vec3d.new_zero := by
  norm_num [comUpdate, Point.new_zero, Point.new, Vec3d.new_zero, Vec3d.new]

theorem c5_dist : c5p1.distance_to c5p2 = 10 := by
  rw [Point.distance_to]
  exact sqrt_eval _ 10 (by norm_num) (by norm_num [c5p1, c5p2])

theorem c5_not_merge : ¬ should_merge c5p1 c5p2 := by
  rw [should_merge, c5_dist]
  push_neg
  constructor <;> norm_num [c5p1, c5p2, G, C]

theorem c5_insert1 (f : ℕ) :
    BHNode.add_point (f + 1) (BHNode.new 1 10 0 0 0) c5p1 = some (c5n1, 0) := by
  rw [add_point_new, c5n1]
  norm_num [c5_comz, c5p1]

theorem c5_insert2 (f : ℕ) :
    BHNode.add_point (f + 1) c5n1 c5p2 = some (c5n2, 0) := by
  rw [c5n1, BHNode.add_point.eq_def]
  simp only []
  rw [if_neg (by norm_num), if_pos (show (1 : ℤ) + 1 = 2 ∧ True by norm_num)]
  rw [if_neg c5_not_merge]
  norm_num [BHNode.split, BHNode.add_to_child.eq_def, routeChildren.eq_def,
    childContains, BHNode.withPoint, BHNode.withCount, countSum,
    List.foldl_cons, List.foldl_nil, c5n2, c5p1, c5p2]

theorem c5_insert3 (f : ℕ) :
    BHNode.add_point (f + 1) c5n2 c5p3 = some (c5n3, 0) := by
  rw [c5n2, BHNode.add_point.eq_def]
  simp only []
  rw [if_pos (show (0 : ℤ) + 1 = 1 by norm_num)]
  norm_num [c5n3]

/-- C5 counterexample: three insertions of bodies outside the root cube
[0,10)³.  The split after the second insertion silently drops both bodies
(warn-and-drop routing), leaving a branch with 8 children and count 0; the
third insertion then stores its body directly in the branch node, giving a
node with 8 children whose count (1) differs from the sum of its children's
counts (0) — the claimed invariant does not hold for every insertion
sequence. -/
theorem struct_invariant_violated :
    BHNode.add_point 1 (BHNode.new 1 10 0 0 0) c5p1 = some (c5n1, 0) ∧
    BHNode.add_point 1 c5n1 c5p2 = some (c5n2, 0) ∧
    BHNode.add_point 1 c5n2 c5p3 = some (c5n3, 0) ∧
    c5n3.children.length = 8 ∧ c5n3.count = 1 ∧ countSum c5n3.children = 0 ∧
    c5n3.count ≠ countSum c5n3.children := by
  refine ⟨c5_insert1 0, c5_insert2 0, c5_insert3 0, ?_, ?_, ?_, ?_⟩
  · norm_num [c5n3]
  · norm_num [c5n3]
  · norm_num [c5n3, countSum, List.foldl_cons, List.foldl_nil]
  · norm_num [c5n3, countSum, List.foldl_cons, List.foldl_nil]

theorem c3_comz1 :
    comUpdate Point.new_zero (Point.new 1 4 4 3 Vec3d.new_zero)
      = Point.new 1 4 4 3 Vec3d.new_zero := by
  norm_num [comUpdate, Point.new_zero, Point.new, Vec3d.new_zero, Vec3d.new]

theorem c3_comz2 :
    comUpdate Point.new_zero (Point.new 1 5 6 5 Vec3d.new_zero)
      = Point.new 1 5 6 5 Vec3d.new_zero := by
  norm_num [comUpdate, Point.new_zero, Point.new, Vec3d.new_zero, Vec3d.new]

theorem c3_comzq1 :
    comUpdate Point.new_zero (Point.new 1 4 4 2 Vec3d.new_zero)
      = Point.new 1 4 4 2 Vec3d.new_zero := by
  norm_num [comUpdate, Point.new_zero, Point.new, Vec3d.new_zero, Vec3d.new]

theorem c3_comzq2 :
    comUpdate Point.new_zero (Point.new 1 6 7 8 Vec3d.new_zero)
      = Point.new 1 6 7 8 Vec3d.new_zero := by
  norm_num [comUpdate, Point.new_zero, Point.new, Vec3d.new_zero, Vec3d.new]

theorem c3com_eval : c3com = Point.new 2 (9 / 2) 5 4 (Vec3d.new 0 0 0) := by
  norm_num [c3com, comUpdate, c3p1, c3p2, Point.new_zero, Point.new, Vec3d.new_zero,
    Vec3d.new]

theorem c3qcom_eval : c3qcom = Point.new 2 5 (11 / 2) 5 (Vec3d.new 0 0 0) := by
  norm_num [c3qcom, comUpdate, c3q1, c3q2, Point.new_zero, Point.new, Vec3d.new_zero,
    Vec3d.new]

theorem c3_dist : c3p1.distance_to c3p2 = 3 := by
  rw [Point.distance_to]
  exact sqrt_eval _ 3 (by norm_num) (by norm_num [c3p1, c3p2])

theorem c3_dist21 : c3p2.distance_to c3p1 = 3 := by
  rw [Point.distance_to]
  exact sqrt_eval _ 3 (by norm_num) (by norm_num [c3p1, c3p2])

theorem c3com_dist1 : c3com.distance_to c3p1 = 3 / 2 := by
  rw [c3com_eval, Point.distance_to]
  exact sqrt_eval _ (3 / 2) (by norm_num) (by norm_num [c3p1])

theorem c3q_dist : c3q1.distance_to c3q2 = 7 := by
  rw [Point.distance_to]
  exact sqrt_eval _ 7 (by norm_num) (by norm_num [c3q1, c3q2])

theorem c3q_dist21 : c3q2.distance_to c3q1 = 7 := by
  rw [Point.distance_to]
  exact sqrt_eval _ 7 (by norm_num) (by norm_num [c3q1, c3q2])

theorem c3qcom_dist1 : c3qcom.distance_to c3q1 = 7 / 2 := by
  rw [c3qcom_eval, Point.distance_to]
  exact sqrt_eval _ (7 / 2) (by norm_num) (by norm_num [c3q1])

theorem c3_not_merge : ¬ should_merge c3p1 c3p2 := by
  rw [should_merge, c3_dist]
  push_neg
  constructor <;> norm_num [c3p1, c3p2, G, C]

theorem c3q_not_merge : ¬ should_merge c3q1 c3q2 := by
  rw [should_merge, c3q_dist]
  push_neg
  constructor <;> norm_num [c3q1, c3q2, G, C]

theorem c3_insert1 (f : ℕ) :
    BHNode.add_point (f + 1) (BHNode.new 1 10 0 0 0) c3p1 = some (c3n1, 0) := by
  rw [add_point_new, c3n1]
  norm_num [c3_comz1, c3p1]

theorem c3_insert2 (f : ℕ) :
    BHNode.add_point (f + 1 + 1) c3n1 c3p2 = some (c3root, 0) := by
  rw [c3n1, BHNode.add_point.eq_def]
  simp only []
  rw [if_neg (by norm_num), if_pos (show (1 : ℤ) + 1 = 2 ∧ True by norm_num)]
  rw [if_neg c3_not_merge]
  norm_num [BHNode.split, BHNode.add_to_child.eq_def, routeChildren.eq_def,
    childContains, add_point_new, BHNode.withPoint, BHNode.withCount, countSum,
    List.foldl_cons, List.foldl_nil, c3root, c3leaf0, c3leaf7, c3com,
    c3_comz1, c3_comz2, c3p1, c3p2]

theorem c3_force_zero : BHNode.calculate_force c3root 1 c3p1 = Vec3d.new_zero := by
  have hg : ¬ (c3p1 = c3com ∨ (2 : ℤ) = 0) := by
    rintro (h | h)
    · have hmass := congrArg Point.mass h
      rw [c3com_eval] at hmass
      norm_num [c3p1] at hmass
    · norm_num at h
  have hr : ¬ ((10 : ℝ) / c3com.distance_to c3p1 < 1) := by
    rw [c3com_dist1]
    norm_num
  have hemp : ∀ a b c : ℝ,
      BHNode.calculate_force (BHNode.new 1 5 a b c) 1 c3p1 = Vec3d.new_zero := by
    intro a b c
    rw [BHNode.new, BHNode.calculate_force.eq_def]
    simp only []
    simp
  have h0 : BHNode.calculate_force c3leaf0 1 c3p1 = Vec3d.new_zero := by
    rw [c3leaf0, BHNode.calculate_force.eq_def]
    simp only []
    simp
  have h7 : BHNode.calculate_force c3leaf7 1 c3p1 = Vec3d.new_zero := by
    have hg7 : ¬ (c3p1 = c3p2 ∨ (1 : ℤ) = 0) := by
      rintro (h | h)
      · have hx := congrArg Point.x h
        norm_num [c3p1, c3p2] at hx
      · norm_num at h
    have hr7 : ¬ ((5 : ℝ) / c3p2.distance_to c3p1 < 1) := by
      rw [c3_dist21]
      norm_num
    rw [c3leaf7, BHNode.calculate_force.eq_def]
    simp only []
    rw [if_neg hg7, if_neg hr7]
    exact forceSum_nil 1 c3p1
  rw [c3root, BHNode.calculate_force.eq_def]
  simp only []
  rw [if_neg hg, if_neg hr]
  rw [forceSum_cons, forceSum_cons, forceSum_cons, forceSum_cons, forceSum_cons,
    forceSum_cons, forceSum_cons, forceSum_cons, forceSum_nil]
  rw [h0, h7, hemp, hemp, hemp, hemp, hemp, hemp]
  norm_num [Vec3d.new_zero, Vec3d.new]

/-- C3 counterexample: at opening angle 1 ∈ (0,1], the two-body tree built
from `c3p1`, `c3p2` (distinct, non-merging) evaluates the force on `c3p1`
to the zero vector — the leaf holding `c3p2` fails the opening test and the
recursion sums over its empty children — whereas the direct two-body force
of B on A is non-zero.  This falsifies the claim as stated. -/
theorem two_body_force_not_direct :
    BHNode.add_point 3 (BHNode.new 1 10 0 0 0) c3p1 = some (c3n1, 0) ∧
    BHNode.add_point 3 c3n1 c3p2 = some (c3root, 0) ∧
    ¬ should_merge c3p1 c3p2 ∧
    ((0 : ℝ) < 1 ∧ (1 : ℝ) ≤ 1) ∧
    BHNode.calculate_force c3root 1 c3p1 = Vec3d.new_zero ∧
    c3p1.force_from c3p2 ≠ Vec3d.new_zero := by
  refine ⟨c3_insert1 2, c3_insert2 1, c3_not_merge, by norm_num, c3_force_zero, ?_⟩
  exact force_from_ne_zero c3p1 c3p2 (by norm_num [c3p1]) (by norm_num [c3p2])
    (Or.inl (by norm_num [c3p1, c3p2]))

theorem c3q_insert1 (θ : ℝ) (f : ℕ) :
    BHNode.add_point (f + 1) (BHNode.new θ 10 0 0 0) c3q1 = some (c3qn1 θ, 0) := by
  rw [add_point_new, c3qn1]
  norm_num [c3_comzq1, c3q1]

theorem c3q_insert2 (θ : ℝ) (f : ℕ) :
    BHNode.add_point (f + 1 + 1) (c3qn1 θ) c3q2 = some (c3qroot θ, 0) := by
  rw [c3qn1, BHNode.add_point.eq_def]
  simp only []
  rw [if_neg (by norm_num), if_pos (show (1 : ℤ) + 1 = 2 ∧ True by norm_num)]
  rw [if_neg c3q_not_merge]
  norm_num [BHNode.split, BHNode.add_to_child.eq_def, routeChildren.eq_def,
    childContains, add_point_new, BHNode.withPoint, BHNode.withCount, countSum,
    List.foldl_cons, List.foldl_nil, c3qroot, c3qleaf0, c3qleaf7, c3qcom,
    c3_comzq1, c3_comzq2, c3q1, c3q2]

theorem c3q_force (θ : ℝ) (hlo : 5 / 7 < θ) (hhi : θ ≤ 1) :
    BHNode.calculate_force (c3qroot θ) 1 c3q1 = c3q1.force_from c3q2 := by
  have hg : ¬ (c3q1 = c3qcom ∨ (2 : ℤ) = 0) := by
    rintro (h | h)
    · have hmass := congrArg Point.mass h
      rw [c3qcom_eval] at hmass
      norm_num [c3q1] at hmass
    · norm_num at h
  have hr : ¬ ((10 : ℝ) / c3qcom.distance_to c3q1 < θ) := by
    rw [c3qcom_dist1, show (10 : ℝ) / (7 / 2) = 20 / 7 by norm_num]
    intro hcon
    linarith
  have hemp : ∀ a b c : ℝ,
      BHNode.calculate_force (BHNode.new θ 5 a b c) 1 c3q1 = Vec3d.new_zero := by
    intro a b c
    rw [BHNode.new, BHNode.calculate_force.eq_def]
    simp only []
    simp
  have h0 : BHNode.calculate_force (c3qleaf0 θ) 1 c3q1 = Vec3d.new_zero := by
    rw [c3qleaf0, BHNode.calculate_force.eq_def]
    simp only []
    simp
  have h7 : BHNode.calculate_force (c3qleaf7 θ) 1 c3q1 = c3q1.force_from c3q2 := by
    have hg7 : ¬ (c3q1 = c3q2 ∨ (1 : ℤ) = 0) := by
      rintro (h | h)
      · have hx := congrArg Point.x h
        norm_num [c3q1, c3q2] at hx
      · norm_num at h
    have hr7 : (5 : ℝ) / c3q2.distance_to c3q1 < θ := by
      rw [c3q_dist21]
      exact hlo
    rw [c3qleaf7, BHNode.calculate_force.eq_def]
    simp only []
    rw [if_neg hg7, if_pos hr7]
  rw [c3qroot, BHNode.calculate_force.eq_def]
  simp only []
  rw [if_neg hg, if_neg hr]
  rw [forceSum_cons, forceSum_cons, forceSum_cons, forceSum_cons, forceSum_cons,
    forceSum_cons, forceSum_cons, forceSum_cons, forceSum_nil]
  rw [h0, h7, hemp, hemp, hemp, hemp, hemp, hemp]
  rw [Vec3d.add_zero_vec, Vec3d.zero_add_vec, Vec3d.zero_add_vec, Vec3d.zero_add_vec,
    Vec3d.zero_add_vec, Vec3d.zero_add_vec, Vec3d.zero_add_vec, Vec3d.zero_add_vec]

/-- C3 (amended): for the two-body tree (distinct, non-merging bodies that
fall in different octants), the force on A from the root equals the direct
two-body Newtonian force of B on A for every opening angle θ ∈ (0,1] such
that the leaf containing B also passes the opening test
(child edge / distance < θ, here 5/7 < θ); for smaller θ the childless leaf
recurses over no children and the claim fails (see the counterexample). -/
theorem two_body_force_direct_amended (θ : ℝ) (f1 f2 : ℕ)
    (hlo : 5 / 7 < θ) (hhi : θ ≤ 1) :
    BHNode.add_point (f1 + 1) (BHNode.new θ 10 0 0 0) c3q1 = some (c3qn1 θ, 0) ∧
    BHNode.add_point (f2 + 1 + 1) (c3qn1 θ) c3q2 = some (c3qroot θ, 0) ∧
    ¬ should_merge c3q1 c3q2 ∧
    BHNode.calculate_force (c3qroot θ) 1 c3q1 = c3q1.force_from c3q2 :=
  ⟨c3q_insert1 θ f1, c3q_insert2 θ f2, c3q_not_merge, c3q_force θ hlo hhi⟩

/-- Witness for C3's amended theorem at θ = 9/10. -/
theorem two_body_force_direct_amended_witness :
    ((5 : ℝ) / 7 < 9 / 10 ∧ (9 : ℝ) / 10 ≤ 1) ∧
    BHNode.add_point 2 (c3qn1 (9 / 10)) c3q2 = some (c3qroot (9 / 10), 0) ∧
    BHNode.calculate_force (c3qroot (9 / 10)) 1 c3q1 = c3q1.force_from c3q2 := by
  have main := two_body_force_direct_amended (9 / 10) 0 0 (by norm_num) (by norm_num)
  exact ⟨⟨by norm_num, by norm_num⟩, main.2.1, main.2.2.2⟩

/-- Enumerating the one-body tree `c7t`. -/
theorem c7_gp : c7t.root.get_points = some [c7p] := by
  rw [show c7t.root = BHNode.mk 1 c7p (some c7p) 1 5 0 0 0 [] from rfl,
    BHNode.get_points]
  simp

/-- The force on `c7p` in `c7t` is zero (self-interaction guard: the
aggregate equals the body). -/
theorem c7_force : c7t.root.calculate_force 1 c7p = Vec3d.new_zero := by
  rw [show c7t.root = BHNode.mk 1 c7p (some c7p) 1 5 0 0 0 [] from rfl,
    BHNode.calculate_force.eq_def]
  simp only []
  simp

/-- The updated body: unchanged position (2,2,2), zero velocity. -/
theorem c7_q_eval : c7q = Point.new 1 2 2 2 (Vec3d.new 0 0 0) := by
  rw [c7q, c7_force]
  norm_num [Point.apply_force, c7p, Vec3d.new_zero, Vec3d.new, Point.new]

/-- One full step of `c7t`. -/
theorem c7_next_eval : BHTree.next 1 c7t 1 = some c7t2 := by
  rw [BHTree.next, c7_gp]
  simp only []
  have hmap : [c7p].map (fun p => p.apply_force 1 (c7t.root.calculate_force 1 p))
      = [c7q] := rfl
  rw [hmap]
  simp only [List.foldl_cons, List.foldl_nil]
  have hmdv : min c7q.z (min c7q.y (min c7q.x f64MAX)) = 2 := by
    rw [c7_q_eval]
    simp only [Point.new_z_val, Point.new_y_val, Point.new_x_val]
    rw [min_eq_left (by norm_num [f64MAX])]
  have hmxv : max c7q.z (max c7q.y (max c7q.x f64MIN)) = 2 := by
    rw [c7_q_eval]
    simp only [Point.new_z_val, Point.new_y_val, Point.new_x_val]
    rw [max_eq_left (by norm_num [f64MIN, f64MAX])]
  rw [hmdv, hmxv, show c7t.theta = (1 : ℝ) from rfl]
  have hadd : BHNode.add_point 1 (BHNode.new 1 (2 + 1 - (2 - 1)) (2 - 1) (2 - 1) (2 - 1))
      c7q = some (.mk 1 (comUpdate Point.new_zero c7q) (some c7q) 1
        (2 + 1 - (2 - 1)) (2 - 1) (2 - 1) (2 - 1) [], 0) :=
    add_point_new 0 (1 : ℝ) (2 + 1 - (2 - 1)) (2 - 1) (2 - 1) (2 - 1) c7q
  rw [insertAll, hadd]
  simp only []
  rw [insertAll]
  norm_num [c7t2]

/-- Witness for C7's theorem at the one-body tree `c7t`. -/
theorem rebuilt_root_contains_all_witness :
    c7t.root.get_points = some [c7p] ∧
    BHTree.next 1 c7t 1 = some c7t2 ∧
    c7q ∈ [c7p].map (fun p => p.apply_force 1 (c7t.root.calculate_force 1 p)) ∧
    (c7t2.root.xloc < c7q.x ∧ c7q.x < c7t2.root.xloc + c7t2.root.region_size ∧
     c7t2.root.yloc < c7q.y ∧ c7q.y < c7t2.root.yloc + c7t2.root.region_size ∧
     c7t2.root.zloc < c7q.z ∧ c7q.z < c7t2.root.zloc + c7t2.root.region_size) := by
  have hmem : c7q ∈ [c7p].map (fun p => p.apply_force 1 (c7t.root.calculate_force 1 p)) := by
    show c7q ∈ [c7q]
    simp
  exact ⟨c7_gp, c7_next_eval, hmem,
    rebuilt_root_contains_all 1 c7t 1 [c7p] c7t2 c7_gp c7_next_eval c7q hmem⟩

end
